import Mathlib

/-! Gnomonic projection over a capability-gated geodesic engine.

A shallow embedding of `geodesic/capabilities/capabilities.go` and
`geodesic/gnomonic.go`.

* `BitMask` is Go's `int`; every constant is non-negative and the only
  operations are `|` and `&`, so masks are natural numbers.
* `float64` is an abstract carrier `F` with the operations the code calls,
  collected in `FloatOps`.  Theorems quantify over every `FloatOps`, hence
  hold for IEEE-754 doubles; `Option ℚ` gives an executable instance, and
  `ExactReal` singles out the exact arithmetics on the real numbers.
* The geodesic engine (`Geodesic`, `GeodesicLine`) is a collaborator that is
  not part of these sources.  It is a record of functions threading an
  engine state `E`, so a theorem "for every engine" covers engines whose
  answers depend on the history of calls.
* `Forward` and `Reverse` return, next to the Go result, the list of engine
  calls they made, in order.
-/

namespace Capabilities

/-- Go `type BitMask int`. -/
abbrev BitMask := Nat

def capNone : BitMask := 0
def CapC1 : BitMask := 1 <<< 0
def CapC1p : BitMask := 1 <<< 1
def CapC2 : BitMask := 1 <<< 2
def CapC3 : BitMask := 1 <<< 3
def CapC4 : BitMask := 1 <<< 4
def capAll : BitMask := 0x1F
def capMask : BitMask := capAll
def outAll : BitMask := 0x7F80
def OutMask : BitMask := 0xFF80
def None : BitMask := 0
def Latitude : BitMask := 1 <<< 7 ||| capNone
def Longitude : BitMask := 1 <<< 8 ||| CapC3
def Azimuth : BitMask := 1 <<< 9 ||| capNone
def Distance : BitMask := 1 <<< 10 ||| CapC1
def Standard : BitMask := Latitude ||| Longitude ||| Azimuth ||| Distance
def DistanceIn : BitMask := 1 <<< 11 ||| CapC1 ||| CapC1p
def ReducedLength : BitMask := 1 <<< 12 ||| CapC1 ||| CapC2
def GeodesicScale : BitMask := 1 <<< 13 ||| CapC1 ||| CapC2
def Area : BitMask := 1 <<< 14 ||| CapC4
def All : BitMask := outAll ||| capAll
def LongUnroll : BitMask := 1 <<< 15

/-- The exported constants of the package, in the order the specification
lists them. -/
def namedConstants : List BitMask :=
  [CapC1, CapC1p, CapC2, CapC3, CapC4, None, Latitude, Longitude, Azimuth,
   Distance, DistanceIn, ReducedLength, GeodesicScale, Area, Standard, All,
   LongUnroll]

/-- The eight named output capabilities. -/
def outputCapabilities : List BitMask :=
  [Latitude, Longitude, Azimuth, Distance, DistanceIn, ReducedLength,
   GeodesicScale, Area]

/-- The five series bits. -/
def seriesBits : List BitMask := [CapC1, CapC1p, CapC2, CapC3, CapC4]

/-- Bitwise OR of a collection of masks (the empty collection gives 0). -/
def union (l : List BitMask) : BitMask := l.foldl (fun m c => m ||| c) 0

end Capabilities

namespace GeographicLib

open Capabilities

/-- The `float64` operations used by `gnomonic.go`.  `epsilon`, `atan2d` and
`sincosd` are package helpers defined outside these sources; `sincosd d`
returns `(sin d, cos d)` for `d` in degrees.  `le a b` is Go's `a <= b` and
`lt a b` is `a < b`, so that `a > b` is `lt b a`.  The one law asked of the
comparisons, `le_not_gt`, holds of IEEE-754: when `a <= b` is true neither
is a not-a-number and `a > b` is false. -/
structure FloatOps (F : Type) where
  nan : F
  zero : F
  one : F
  hundredth : F
  epsilon : F
  sub : F → F → F
  mul : F → F → F
  div : F → F → F
  abs : F → F
  sqrt : F → F
  atan : F → F
  hypot : F → F → F
  atan2d : F → F → F
  sincosd : F → F × F
  le : F → F → Bool
  lt : F → F → Bool
  le_not_gt : ∀ a b, le a b = true → lt b a = false

/-- Go `const NumIt int = 10`. -/
def NumIt : Nat := 10

/-- Go `var Eps = 0.01 * math.Sqrt(epsilon)`. -/
def Eps {F : Type} (ops : FloatOps F) : F := ops.mul ops.hundredth (ops.sqrt ops.epsilon)

/-- Go `type GnomonicData struct`. -/
structure GnomonicData (F : Type) where
  Lat0 : F
  Lon0 : F
  Lat : F
  Lon : F
  X : F
  Y : F
  Azi : F
  Rk : F
deriving DecidableEq, Repr

/-- The fields of the engine's result record `Data` that the projector and
the specification mention. -/
structure Data (F : Type) where
  Lat2 : F
  Lon2 : F
  Azi1 : F
  Azi2 : F
  S12 : F
  M12Reduced : F
  M12 : F
deriving DecidableEq, Repr

/-- Go's zero value of `Data` (`var pos Data`). -/
def Data.zeroValue {F : Type} (ops : FloatOps F) : Data F :=
  ⟨ops.zero, ops.zero, ops.zero, ops.zero, ops.zero, ops.zero, ops.zero⟩

/-- The geodesic engine `*Geodesic` together with its line handles `L`.
`E` is the state of the engine: every query receives the current state and
returns the next one. -/
structure Geodesic (F L E : Type) where
  EquatorialRadius : F
  Flattening : F
  InverseWithCapabilities : E → F → F → F → F → BitMask → Data F × E
  LineWithCapabilities : E → F → F → F → BitMask → L × E
  PositionWithCapabilities : E → L → F → BitMask → Data F × E

/-- Go `type Gnomonic struct`. -/
structure Gnomonic (F L E : Type) where
  earth : Geodesic F L E
  a : F
  f : F

/-- Go `func NewGnomonic(geo *Geodesic) *Gnomonic`. -/
def NewGnomonic {F L E : Type} (geo : Geodesic F L E) : Gnomonic F L E :=
  { earth := geo, a := geo.EquatorialRadius, f := geo.Flattening }

/-- One call of `InverseWithCapabilities`: arguments and answer. -/
structure InverseCall (F : Type) where
  lat1 : F
  lon1 : F
  lat2 : F
  lon2 : F
  caps : BitMask
  resp : Data F
deriving DecidableEq, Repr

/-- One call of `LineWithCapabilities`: arguments and the handle returned. -/
structure LineCall (F L : Type) where
  lat1 : F
  lon1 : F
  azi1 : F
  caps : BitMask
  line : L
deriving DecidableEq, Repr

/-- One call of `PositionWithCapabilities`: the line queried, the
arclength, the mask and the sample returned. -/
structure PositionCall (F L : Type) where
  line : L
  s : F
  caps : BitMask
  resp : Data F
deriving DecidableEq, Repr

/-- The mask `Forward` passes to the inverse query. -/
def forwardCaps : BitMask := Azimuth ||| GeodesicScale ||| ReducedLength

/-- The mask `Reverse` passes to the line constructor and to every position
query. -/
def reverseCaps : BitMask :=
  Latitude ||| Longitude ||| Azimuth ||| DistanceIn ||| ReducedLength ||| GeodesicScale

/-- What a call of `Forward` leaves behind: the returned record, the engine
state, and the inverse queries made. -/
structure ForwardRun (F E : Type) where
  fwd : GnomonicData F
  st : E
  inverses : List (InverseCall F)

/-- Go `func (g *Gnomonic) Forward(lat0, lon0, lat, lon float64) GnomonicData`. -/
def Forward {F L E : Type} (ops : FloatOps F) (g : Gnomonic F L E) (st : E)
    (lat0 lon0 lat lon : F) : ForwardRun F E :=
  let r := g.earth.InverseWithCapabilities st lat0 lon0 lat lon forwardCaps
  let inv := r.1
  let fwd : GnomonicData F := ⟨lat0, lon0, lat, lon, ops.nan, ops.nan, inv.Azi2, inv.M12⟩
  let fwd : GnomonicData F :=
    if ops.lt ops.zero inv.M12 then
      let rho := ops.div inv.M12Reduced inv.M12
      let sc := ops.sincosd inv.Azi1
      { fwd with X := ops.mul rho sc.1, Y := ops.mul rho sc.2 }
    else fwd
  { fwd := fwd, st := r.2, inverses := [⟨lat0, lon0, lat, lon, forwardCaps, inv⟩] }

/-- The local variables of `Reverse` that its loop changes (`s`, `trip`,
`pos`), the engine state, and the record of what the loop did: the position
queries issued and the corrections `ds` computed, both in order. -/
structure LoopState (F L E : Type) where
  s : F
  trip : Nat
  pos : Data F
  st : E
  queries : List (PositionCall F L)
  corrections : List F

/-- The correction `ds` of one iteration of `Reverse`. -/
def correction {F : Type} (ops : FloatOps F) (little : Bool) (rho : F) (pos : Data F) : F :=
  if little then
    ops.mul (ops.mul (ops.sub (ops.div pos.M12Reduced pos.M12) rho) pos.M12) pos.M12
  else
    ops.mul (ops.mul (ops.sub rho (ops.div pos.M12 pos.M12Reduced)) pos.M12Reduced)
      pos.M12Reduced

/-- The test `math.Abs(ds) <= Eps*g.a` that raises the convergence flag. -/
def converged {F L E : Type} (ops : FloatOps F) (g : Gnomonic F L E) (ds : F) : Bool :=
  ops.le (ops.abs ds) (ops.mul (Eps ops) g.a)

/-- The loop `for ; count > 0; count-- { ... }` of `Reverse`; the first
argument is `count`. -/
def Reverse.loop {F L E : Type} (ops : FloatOps F) (g : Gnomonic F L E) (line : L)
    (little : Bool) (rho : F) : Nat → LoopState F L E → LoopState F L E
  | 0, σ => σ
  | count + 1, σ =>
    let r := g.earth.PositionWithCapabilities σ.st line σ.s reverseCaps
    let pos := r.1
    let queries := σ.queries ++ [⟨line, σ.s, reverseCaps, pos⟩]
    if σ.trip > 0 then
      { σ with pos := pos, st := r.2, queries := queries }
    else
      let ds := correction ops little rho pos
      let s := ops.sub σ.s ds
      let trip := if converged ops g ds then σ.trip + 1 else σ.trip
      Reverse.loop ops g line little rho count
        { s := s, trip := trip, pos := pos, st := r.2, queries := queries,
          corrections := σ.corrections ++ [ds] }

/-- What a call of `Reverse` leaves behind: the returned record, the line
constructions made, and the final loop state (which holds the position
queries, the corrections and the engine state). -/
structure ReverseRun (F L E : Type) where
  rev : GnomonicData F
  lines : List (LineCall F L)
  final : LoopState F L E

/-- Go `func (g *Gnomonic) Reverse(lat0, lon0, x, y float64) GnomonicData`. -/
def Reverse {F L E : Type} (ops : FloatOps F) (g : Gnomonic F L E) (st : E)
    (lat0 lon0 x y : F) : ReverseRun F L E :=
  let rev : GnomonicData F := ⟨lat0, lon0, ops.nan, ops.nan, x, y, ops.nan, ops.nan⟩
  let azi0 := ops.atan2d x y
  let rho := ops.hypot x y
  let s := ops.mul g.a (ops.atan (ops.div rho g.a))
  let little := ops.le rho g.a
  let rho := if !little then ops.div ops.one rho else rho
  let l := g.earth.LineWithCapabilities st lat0 lon0 azi0 reverseCaps
  let line := l.1
  let final := Reverse.loop ops g line little rho NumIt
    { s := s, trip := 0, pos := Data.zeroValue ops, st := l.2, queries := [],
      corrections := [] }
  let pos := final.pos
  { rev := if final.trip = 0 then rev
           else { rev with Lat := pos.Lat2, Lon := pos.Lon2, Azi := pos.Azi2, Rk := pos.M12 },
    lines := [⟨lat0, lon0, azi0, reverseCaps, line⟩],
    final := final }

/-- The local `little` of `Reverse`: `rho <= g.a` for `rho = math.Hypot(x, y)`. -/
def Reverse.little {F L E : Type} (ops : FloatOps F) (g : Gnomonic F L E) (x y : F) : Bool :=
  ops.le (ops.hypot x y) g.a

/-- The local `rho` of `Reverse` as the loop sees it: `math.Hypot(x, y)`,
replaced by its reciprocal when `little` is false. -/
def Reverse.rho {F L E : Type} (ops : FloatOps F) (g : Gnomonic F L E) (x y : F) : F :=
  if !Reverse.little ops g x y then ops.div ops.one (ops.hypot x y) else ops.hypot x y

/-- The handle of the line that `Reverse` constructs. -/
def Reverse.line {F L E : Type} (ops : FloatOps F) (g : Gnomonic F L E) (st : E)
    (lat0 lon0 x y : F) : L :=
  (g.earth.LineWithCapabilities st lat0 lon0 (ops.atan2d x y) reverseCaps).1

/-- The position query an iteration entered in state `σ` makes. -/
def Reverse.query {F L E : Type} (g : Gnomonic F L E) (line : L) (σ : LoopState F L E) :
    PositionCall F L :=
  ⟨line, σ.s, reverseCaps, (g.earth.PositionWithCapabilities σ.st line σ.s reverseCaps).1⟩

/-- The state after an iteration that takes the `break`: the query has
been made and nothing else has changed. -/
def Reverse.stop {F L E : Type} (g : Gnomonic F L E) (line : L) (σ : LoopState F L E) :
    LoopState F L E :=
  { σ with
    pos := (Reverse.query g line σ).resp
    st := (g.earth.PositionWithCapabilities σ.st line σ.s reverseCaps).2
    queries := σ.queries ++ [Reverse.query g line σ] }

/-- The state after an iteration that does not take the `break`. -/
def Reverse.advance {F L E : Type} (ops : FloatOps F) (g : Gnomonic F L E) (line : L)
    (little : Bool) (rho : F) (σ : LoopState F L E) : LoopState F L E :=
  { s := ops.sub σ.s (correction ops little rho (Reverse.query g line σ).resp)
    trip := if converged ops g (correction ops little rho (Reverse.query g line σ).resp)
      then σ.trip + 1 else σ.trip
    pos := (Reverse.query g line σ).resp
    st := (g.earth.PositionWithCapabilities σ.st line σ.s reverseCaps).2
    queries := σ.queries ++ [Reverse.query g line σ]
    corrections := σ.corrections ++ [correction ops little rho (Reverse.query g line σ).resp] }

/-! ## Invariants of the loop of `Reverse` -/

/-- A loop state as it stands when the loop condition is evaluated: every
query so far has produced a correction; while the flag is down no
correction has met the tolerance; once it is up, the last correction was
computed from the last sample, met the tolerance, and `s` is already the
corrected arclength; `pos` is the last sample. -/
def AtHead {F L E : Type} (ops : FloatOps F) (g : Gnomonic F L E) (little : Bool) (rho : F)
    (σ : LoopState F L E) : Prop :=
  σ.queries.length = σ.corrections.length ∧
  (σ.trip = 0 → ∀ ds ∈ σ.corrections, converged ops g ds = false) ∧
  (0 < σ.trip → ∃ q, σ.queries.getLast? = some q ∧
      σ.corrections.getLast? = some (correction ops little rho q.resp) ∧
      σ.s = ops.sub q.s (correction ops little rho q.resp) ∧
      converged ops g (correction ops little rho q.resp) = true) ∧
  (∀ q, σ.queries.getLast? = some q → σ.pos = q.resp)

/-- A loop state as the `break` leaves it: the flag is up, the last
correction was computed from the last sample but one and met the tolerance,
the last query was made at the corrected arclength, no correction was
computed from it, and `pos` is its sample. -/
def Broke {F L E : Type} (ops : FloatOps F) (g : Gnomonic F L E) (little : Bool) (rho : F)
    (σ : LoopState F L E) : Prop :=
  0 < σ.trip ∧ ∃ qs q1 q2, σ.queries = qs ++ [q1, q2] ∧
    qs.length + 1 = σ.corrections.length ∧
    σ.corrections.getLast? = some (correction ops little rho q1.resp) ∧
    q2.s = ops.sub q1.s (correction ops little rho q1.resp) ∧
    converged ops g (correction ops little rho q1.resp) = true ∧
    σ.pos = q2.resp

/-- The run reports the sample taken after the correction that raised the
flag: with `n` corrections computed, the `n`-th was computed from the `n`-th
sample `q1` and met the tolerance, there is an `n+1`-st query `q2`, made at
the corrected arclength `q1.s - ds`, and the latitude, longitude, azimuth and
scale returned are those of `q2`. -/
def ReportsCorrectedSample {F L E : Type} (ops : FloatOps F) (g : Gnomonic F L E)
    (x y : F) (r : ReverseRun F L E) : Prop :=
  ∃ q1 q2, r.final.queries[r.final.corrections.length - 1]? = some q1 ∧
    r.final.queries[r.final.corrections.length]? = some q2 ∧
    r.final.corrections.getLast? =
      some (correction ops (Reverse.little ops g x y) (Reverse.rho ops g x y) q1.resp) ∧
    converged ops g
      (correction ops (Reverse.little ops g x y) (Reverse.rho ops g x y) q1.resp) = true ∧
    q2.s = ops.sub q1.s
      (correction ops (Reverse.little ops g x y) (Reverse.rho ops g x y) q1.resp) ∧
    r.rev.Lat = q2.resp.Lat2 ∧ r.rev.Lon = q2.resp.Lon2 ∧ r.rev.Azi = q2.resp.Azi2 ∧
    r.rev.Rk = q2.resp.M12

/-! ## An executable instance: exact rationals with a not-a-number

`Option ℚ` with `none` as the not-a-number.  Arithmetic is exact; a
division by zero gives `none` (there are no infinities); every comparison
with `none` is false.  Square root, arctangent and the degree-based
trigonometric helpers are rational stand-ins, exact at the arguments the
examples use (perfect squares, 0, multiples of 90 degrees). -/

/-- Integer square root by Newton iteration from above, with fuel. -/
def isqrtIter (n : Nat) : Nat → Nat → Nat
  | 0, x => x
  | fuel + 1, x =>
    let y := (x + n / x) / 2
    if y < x then isqrtIter n fuel y else x

/-- Integer square root. -/
def isqrt (n : Nat) : Nat := if n = 0 then 0 else isqrtIter n 200 n

/-- Square root of a rational to 32 binary places (exact on squares of
rationals with a small denominator); `none` below zero. -/
def ratSqrt (q : ℚ) : Option ℚ :=
  if q < 0 then none
  else some ((isqrt (q.num.toNat * 2 ^ 64 / q.den) : ℚ) / 2 ^ 32)

/-- Stand-in for the arctangent: `x / (1 + 9/32 x²)` on `[-1, 1]` and
`±π/2 − atan (1/x)` outside, with `355/113` for `π`. -/
def ratAtan (x : ℚ) : ℚ :=
  if |x| ≤ 1 then x / (1 + 9 / 32 * x * x)
  else
    let r := (1 / x) / (1 + 9 / 32 * (1 / x) * (1 / x))
    if 0 < x then 355 / 226 - r else -(355 / 226) - r

/-- Stand-in for `atan2d y x` in degrees: linear in the taxicab ratio,
exact on the axes and the diagonals. -/
def ratAtan2d (y x : ℚ) : ℚ :=
  if x = 0 ∧ y = 0 then 0
  else
    let t := 90 * |y| / (|x| + |y|)
    let u := if 0 ≤ x then t else 180 - t
    if 0 ≤ y then u else -u

/-- Stand-in for the sine of an angle in degrees (Bhaskara's rational
approximation after reduction to `[0, 360)`), exact at multiples of 30. -/
def ratSind (d : ℚ) : ℚ :=
  let r := d - 360 * ((d / 360).num / (d / 360).den : ℤ)
  if r ≤ 180 then 4 * r * (180 - r) / (40500 - r * (180 - r))
  else -(4 * (r - 180) * (360 - r) / (40500 - (r - 180) * (360 - r)))

/-- Lift a binary rational operation; a not-a-number argument gives one. -/
def lift2 (f : ℚ → ℚ → ℚ) : Option ℚ → Option ℚ → Option ℚ
  | some x, some y => some (f x y)
  | _, _ => none

/-- The arithmetic of the executable instance. -/
def ratOps : FloatOps (Option ℚ) where
  nan := none
  zero := some 0
  one := some 1
  hundredth := some (1 / 100)
  epsilon := some (1 / 2 ^ 52)
  sub := lift2 (fun x y => x - y)
  mul := lift2 (fun x y => x * y)
  div := fun x y => if y = some 0 then none else lift2 (fun x y => x / y) x y
  abs := Option.map (fun x => |x|)
  sqrt := fun x => x.bind ratSqrt
  atan := Option.map ratAtan
  hypot := fun x y => (lift2 (fun x y => x * x + y * y) x y).bind ratSqrt
  atan2d := lift2 ratAtan2d
  sincosd := fun d => (d.map ratSind, d.map (fun x => ratSind (90 - x)))
  le := fun x y => match x, y with
    | some a, some b => decide (a ≤ b)
    | _, _ => false
  lt := fun x y => match x, y with
    | some a, some b => decide (a < b)
    | _, _ => false
  le_not_gt := by
    intro a b h
    cases a <;> cases b <;> simp_all

/-- A sample with reduced length `m`, geodesic scale `M`, and the remaining
fields set to the tag `i`, so that samples can be told apart. -/
def sample (i m M : ℚ) : Data (Option ℚ) :=
  ⟨some i, some i, some i, some i, some i, some m, some M⟩

/-- A scripted engine on the WGS84 equatorial radius: its state is the list
of answers still to give; each inverse or position query answers with the
head of the list (the zero record once the list is used up) and drops it.
Line handles are the bearing of the line. -/
def scripted : Geodesic (Option ℚ) (Option ℚ) (List (Data (Option ℚ))) where
  EquatorialRadius := some 6378137
  Flattening := some (1000000000 / 298257223563)
  InverseWithCapabilities := fun st _ _ _ _ _ =>
    (st.headD (Data.zeroValue ratOps), st.tail)
  LineWithCapabilities := fun st _ _ azi _ => (azi, st)
  PositionWithCapabilities := fun st _ _ _ =>
    (st.headD (Data.zeroValue ratOps), st.tail)

/-- A script on which the Newton iteration stalls: every sample has
`m12 / M12 = 2000`, one kilometre off the target radius 1000. -/
def stallScript : List (Data (Option ℚ)) :=
  (List.range 10).map (fun i => sample i 2000 1)

/-- A script on which the third sample hits the target radius 1000. -/
def hitScript : List (Data (Option ℚ)) :=
  [sample 0 2000 1, sample 1 1500 1, sample 2 1000 1, sample 3 1000 1]

/-- A script on which only the tenth sample is within tolerance of the
target radius 1000, half a millimetre off. -/
def lateScript : List (Data (Option ℚ)) :=
  (List.range 9).map (fun i => sample i 2000 1) ++ [sample 9 (1000 + 1 / 2000) 1]

/-- A plane as a geodesic engine, without state: a line handle is its start
point and bearing, the point at arclength `s` lies `s` along the bearing,
and on every geodesic the reduced length is the distance and the geodesic
scale is 1. -/
def planar : Geodesic (Option ℚ) (Option ℚ × Option ℚ × Option ℚ) Unit where
  EquatorialRadius := some 6378137
  Flattening := some 0
  InverseWithCapabilities := fun st lat1 lon1 lat2 lon2 _ =>
    let dlat := ratOps.sub lat2 lat1
    let dlon := ratOps.sub lon2 lon1
    (⟨lat2, lon2, ratOps.atan2d dlon dlat, ratOps.atan2d dlon dlat,
      ratOps.hypot dlon dlat, ratOps.hypot dlon dlat, some 1⟩, st)
  LineWithCapabilities := fun st lat1 lon1 azi1 _ => ((lat1, lon1, azi1), st)
  PositionWithCapabilities := fun st l s _ =>
    (⟨lift2 (fun a b => a + b) l.1 (ratOps.mul s (ratOps.sincosd l.2.2).2),
      lift2 (fun a b => a + b) l.2.1 (ratOps.mul s (ratOps.sincosd l.2.2).1),
      l.2.2, l.2.2, s, s, some 1⟩, st)

/-- An engine like `scripted` that reports a flattening of 2, outside
`(-1, 1)`. -/
def oblong : Geodesic (Option ℚ) (Option ℚ) (List (Data (Option ℚ))) :=
  { scripted with Flattening := some 2 }

/-! ## Further names for parts of the source -/

/-- Go `func EarthGnomonic() *Gnomonic`.  The package values `WGS84`,
`WGS84_a` and `WGS84_f` are defined outside these sources and are taken as
arguments. -/
def EarthGnomonic {F L E : Type} (WGS84 : Geodesic F L E) (WGS84_a WGS84_f : F) :
    Gnomonic F L E :=
  { earth := WGS84, a := WGS84_a, f := WGS84_f }

/-- The initial value of the local `s` of `Reverse`:
`g.a * math.Atan(rho/g.a)` for `rho = math.Hypot(x, y)`. -/
def Reverse.s0 {F L E : Type} (ops : FloatOps F) (g : Gnomonic F L E) (x y : F) : F :=
  ops.mul g.a (ops.atan (ops.div (ops.hypot x y) g.a))

/-- The position queries `qs` and corrections `cs` form a Newton chain from
arclength `s`: the first query is at `s`; a correction, when there is one,
is the one `Reverse` computes from that query's sample, and the rest is a
chain from `s` minus the correction; a query without a correction is the
last one. -/
def Chain {F L : Type} (ops : FloatOps F) (little : Bool) (rho : F) :
    F → List (PositionCall F L) → List F → Prop
  | _, [], cs => cs = []
  | s, q :: qs, [] => q.s = s ∧ qs = []
  | s, q :: qs, c :: cs =>
    q.s = s ∧ c = correction ops little rho q.resp ∧
      Chain ops little rho (ops.sub s c) qs cs

/-- No correction but the last one of `cs` meets the tolerance. -/
def NoEarlierHit {F L E : Type} (ops : FloatOps F) (g : Gnomonic F L E) (cs : List F) : Prop :=
  ∀ j d, j + 1 < cs.length → cs[j]? = some d → converged ops g d = false

/-- The facts of arithmetic at 0 and 1 that `Reverse` meets at the center
of the projection, for an equatorial radius `a`.  All hold of exact real
arithmetic with `a > 0`, and of IEEE-754 doubles with `a` positive and
finite. -/
structure CenterArith {F : Type} (ops : FloatOps F) (a : F) : Prop where
  hypot_zero : ops.hypot ops.zero ops.zero = ops.zero
  zero_div : ops.div ops.zero a = ops.zero
  atan_zero : ops.atan ops.zero = ops.zero
  mul_zero : ops.mul a ops.zero = ops.zero
  zero_le : ops.le ops.zero a = true
  zero_div_one : ops.div ops.zero ops.one = ops.zero
  sub_zero : ops.sub ops.zero ops.zero = ops.zero
  zero_mul_one : ops.mul ops.zero ops.one = ops.zero
  abs_zero : ops.abs ops.zero = ops.zero
  tol_nonneg : ops.le ops.zero (ops.mul (Eps ops) a) = true

/-- An arithmetic on the real numbers whose operations are the exact ones:
no rounding, no not-a-number (`x / 0` is Lean's `0`, and nothing below
divides by zero). -/
structure ExactReal (ops : FloatOps ℝ) : Prop where
  zero_eq : ops.zero = 0
  one_eq : ops.one = 1
  hundredth_eq : ops.hundredth = 1 / 100
  sub_eq : ∀ a b, ops.sub a b = a - b
  mul_eq : ∀ a b, ops.mul a b = a * b
  div_eq : ∀ a b, ops.div a b = a / b
  abs_eq : ∀ a, ops.abs a = |a|
  sqrt_eq : ∀ a, ops.sqrt a = Real.sqrt a
  atan_eq : ∀ a, ops.atan a = Real.arctan a
  hypot_eq : ∀ a b, ops.hypot a b = Real.sqrt (a ^ 2 + b ^ 2)
  le_iff : ∀ a b, ops.le a b = true ↔ a ≤ b
  lt_iff : ∀ a b, ops.lt a b = true ↔ a < b

/-- An engine over the real numbers with equatorial radius 1 that reports
on every geodesic the reduced length `s` and the geodesic scale 1, as in a
plane; the other fields are 0. -/
def flatScale : Geodesic ℝ Unit Unit where
  EquatorialRadius := 1
  Flattening := 0
  InverseWithCapabilities := fun st _ _ _ _ _ => (⟨0, 0, 0, 0, 0, 0, 1⟩, st)
  LineWithCapabilities := fun st _ _ _ _ => ((), st)
  PositionWithCapabilities := fun st _ s _ => (⟨0, 0, 0, 0, s, s, 1⟩, st)

/-! ## The loop of `Reverse` -/

theorem Reverse_loop_zero {F L E : Type} (ops : FloatOps F) (g : Gnomonic F L E) (line : L)
    (little : Bool) (rho : F) (σ : LoopState F L E) :
    Reverse.loop ops g line little rho 0 σ = σ := rfl

/-- An iteration entered with the flag up queries once more and breaks. -/
theorem Reverse_loop_break {F L E : Type} (ops : FloatOps F) (g : Gnomonic F L E) (line : L)
    (little : Bool) (rho : F) (n : Nat) (σ : LoopState F L E) (h : 0 < σ.trip) :
    Reverse.loop ops g line little rho (n + 1) σ = Reverse.stop g line σ := by
  simp [Reverse.loop, Reverse.stop, Reverse.query, h]

/-- An iteration entered with the flag down queries, corrects `s`, tests
the correction and goes round again. -/
theorem Reverse_loop_next {F L E : Type} (ops : FloatOps F) (g : Gnomonic F L E) (line : L)
    (little : Bool) (rho : F) (n : Nat) (σ : LoopState F L E) (h : σ.trip = 0) :
    Reverse.loop ops g line little rho (n + 1) σ =
      Reverse.loop ops g line little rho n (Reverse.advance ops g line little rho σ) := by
  simp [Reverse.loop, Reverse.advance, Reverse.query, h]

/-- Every query the loop adds is made on the line it was given, with the
mask of `Reverse`, and it adds at most `count` of them. -/
theorem Reverse_loop_queries {F L E : Type} (ops : FloatOps F) (g : Gnomonic F L E) (line : L)
    (little : Bool) (rho : F) (n : Nat) (σ : LoopState F L E) :
    ∃ qs, (Reverse.loop ops g line little rho n σ).queries = σ.queries ++ qs ∧
      qs.length ≤ n ∧ ∀ q ∈ qs, q.line = line ∧ q.caps = reverseCaps := by
  induction n generalizing σ with
  | zero => exact ⟨[], by simp [Reverse_loop_zero], by simp, by simp⟩
  | succ n ih =>
    by_cases h : 0 < σ.trip
    · rw [Reverse_loop_break ops g line little rho n σ h]
      exact ⟨[Reverse.query g line σ], rfl, by simp, by simp [Reverse.query]⟩
    · have h0 : σ.trip = 0 := by omega
      rw [Reverse_loop_next ops g line little rho n σ h0]
      obtain ⟨qs, hq, hl, hall⟩ := ih (Reverse.advance ops g line little rho σ)
      refine ⟨Reverse.query g line σ :: qs, ?_, by simp; omega, ?_⟩
      · rw [hq]; simp [Reverse.advance]
      · intro q hmem
        rcases List.mem_cons.mp hmem with rfl | hmem
        · exact ⟨rfl, rfl⟩
        · exact hall q hmem

/-- An iteration that does not break leaves the state as the next
evaluation of the loop condition expects it. -/
theorem AtHead_advance {F L E : Type} (ops : FloatOps F) (g : Gnomonic F L E) (line : L)
    (little : Bool) (rho : F) (σ : LoopState F L E) (hσ : AtHead ops g little rho σ)
    (h0 : σ.trip = 0) :
    AtHead ops g little rho (Reverse.advance ops g line little rho σ) := by
  obtain ⟨hlen, hdown, -, -⟩ := hσ
  refine ⟨by simp [Reverse.advance, hlen], ?_, ?_, ?_⟩
  · intro ht ds hmem
    by_cases hc : converged ops g (correction ops little rho (Reverse.query g line σ).resp) = true
    · simp [Reverse.advance, hc] at ht
    · rcases List.mem_append.mp hmem with hmem | hmem
      · exact hdown h0 ds hmem
      · rw [List.mem_singleton.mp hmem]; simpa using hc
  · intro ht
    by_cases hc : converged ops g (correction ops little rho (Reverse.query g line σ).resp) = true
    · exact ⟨Reverse.query g line σ, List.getLast?_concat _, List.getLast?_concat _, rfl, hc⟩
    · simp [Reverse.advance, hc, h0] at ht
  · intro q hq
    simp only [Reverse.advance, List.getLast?_concat, Option.some.injEq] at hq
    rw [← hq]
    rfl

/-- An iteration entered with the flag up leaves the state of a `break`. -/
theorem Broke_stop {F L E : Type} (ops : FloatOps F) (g : Gnomonic F L E) (line : L)
    (little : Bool) (rho : F) (σ : LoopState F L E) (hσ : AtHead ops g little rho σ)
    (h : 0 < σ.trip) :
    Broke ops g little rho (Reverse.stop g line σ) := by
  obtain ⟨hlen, -, hup, -⟩ := hσ
  obtain ⟨q, hq, hc, hs, hconv⟩ := hup h
  obtain ⟨qs, hqs⟩ := List.getLast?_eq_some_iff.mp hq
  refine ⟨h, qs, q, Reverse.query g line σ, ?_, ?_, hc, hs, hconv, rfl⟩
  · simp [Reverse.stop, hqs]
  · show qs.length + 1 = σ.corrections.length
    rw [← hlen, hqs]; simp

/-- The loop ends either at its head with the budget used up, or at the
`break` with budget to spare. -/
theorem Reverse_loop_outcome {F L E : Type} (ops : FloatOps F) (g : Gnomonic F L E) (line : L)
    (little : Bool) (rho : F) (n : Nat) (σ : LoopState F L E)
    (hσ : AtHead ops g little rho σ) :
    (AtHead ops g little rho (Reverse.loop ops g line little rho n σ) ∧
      (Reverse.loop ops g line little rho n σ).corrections.length
        = σ.corrections.length + n) ∨
    (Broke ops g little rho (Reverse.loop ops g line little rho n σ) ∧
      (Reverse.loop ops g line little rho n σ).corrections.length
        < σ.corrections.length + n) := by
  induction n generalizing σ with
  | zero => exact Or.inl ⟨by simpa [Reverse_loop_zero] using hσ, by simp [Reverse_loop_zero]⟩
  | succ n ih =>
    by_cases h : 0 < σ.trip
    · rw [Reverse_loop_break ops g line little rho n σ h]
      exact Or.inr ⟨Broke_stop ops g line little rho σ hσ h, by simp [Reverse.stop]⟩
    · have h0 : σ.trip = 0 := by omega
      rw [Reverse_loop_next ops g line little rho n σ h0]
      have hlen : (Reverse.advance ops g line little rho σ).corrections.length
          = σ.corrections.length + 1 := by simp [Reverse.advance]
      rcases ih _ (AtHead_advance ops g line little rho σ hσ h0) with ⟨hA, hl⟩ | ⟨hB, hl⟩
      · exact Or.inl ⟨hA, by omega⟩
      · exact Or.inr ⟨hB, by omega⟩

/-! ## `Reverse` -/

theorem getElem?_append_pair_fst {α : Type} (l : List α) (a b : α) :
    (l ++ [a, b])[l.length]? = some a := by
  rw [List.getElem?_append_right (le_refl _)]; simp

theorem getElem?_append_pair_snd {α : Type} (l : List α) (a b : α) :
    (l ++ [a, b])[l.length + 1]? = some b := by
  rw [List.getElem?_append_right (by omega)]; simp

/-- The state in which `Reverse` enters its loop. -/
theorem Reverse_final {F L E : Type} (ops : FloatOps F) (g : Gnomonic F L E) (st : E)
    (lat0 lon0 x y : F) :
    (Reverse ops g st lat0 lon0 x y).final =
      Reverse.loop ops g (Reverse.line ops g st lat0 lon0 x y) (Reverse.little ops g x y)
        (Reverse.rho ops g x y) NumIt
        { s := ops.mul g.a (ops.atan (ops.div (ops.hypot x y) g.a))
          trip := 0
          pos := Data.zeroValue ops
          st := (g.earth.LineWithCapabilities st lat0 lon0 (ops.atan2d x y) reverseCaps).2
          queries := []
          corrections := [] } := rfl

/-- The record `Reverse` returns, read off the final loop state. -/
theorem Reverse_rev {F L E : Type} (ops : FloatOps F) (g : Gnomonic F L E) (st : E)
    (lat0 lon0 x y : F) :
    (Reverse ops g st lat0 lon0 x y).rev =
      if (Reverse ops g st lat0 lon0 x y).final.trip = 0 then
        ⟨lat0, lon0, ops.nan, ops.nan, x, y, ops.nan, ops.nan⟩
      else
        ⟨lat0, lon0, (Reverse ops g st lat0 lon0 x y).final.pos.Lat2,
          (Reverse ops g st lat0 lon0 x y).final.pos.Lon2, x, y,
          (Reverse ops g st lat0 lon0 x y).final.pos.Azi2,
          (Reverse ops g st lat0 lon0 x y).final.pos.M12⟩ := rfl

/-- The loop of `Reverse` ends at its head after `NumIt` corrections or at
the `break` after fewer. -/
theorem Reverse_outcome {F L E : Type} (ops : FloatOps F) (g : Gnomonic F L E) (st : E)
    (lat0 lon0 x y : F) :
    (AtHead ops g (Reverse.little ops g x y) (Reverse.rho ops g x y)
        (Reverse ops g st lat0 lon0 x y).final ∧
      (Reverse ops g st lat0 lon0 x y).final.corrections.length = NumIt) ∨
    (Broke ops g (Reverse.little ops g x y) (Reverse.rho ops g x y)
        (Reverse ops g st lat0 lon0 x y).final ∧
      (Reverse ops g st lat0 lon0 x y).final.corrections.length < NumIt) := by
  rw [Reverse_final]
  have h := Reverse_loop_outcome ops g (Reverse.line ops g st lat0 lon0 x y)
    (Reverse.little ops g x y) (Reverse.rho ops g x y) NumIt
    { s := ops.mul g.a (ops.atan (ops.div (ops.hypot x y) g.a))
      trip := 0
      pos := Data.zeroValue ops
      st := (g.earth.LineWithCapabilities st lat0 lon0 (ops.atan2d x y) reverseCaps).2
      queries := []
      corrections := [] }
    ⟨rfl, by simp, by simp, by simp⟩
  simpa using h

/-- The flag is down at the end exactly when no correction met the
tolerance. -/
theorem Reverse_trip_eq_zero_iff {F L E : Type} (ops : FloatOps F) (g : Gnomonic F L E)
    (st : E) (lat0 lon0 x y : F) :
    (Reverse ops g st lat0 lon0 x y).final.trip = 0 ↔
      ∀ ds ∈ (Reverse ops g st lat0 lon0 x y).final.corrections, converged ops g ds = false := by
  constructor
  · intro h0
    rcases Reverse_outcome ops g st lat0 lon0 x y with ⟨⟨-, hdown, -, -⟩, -⟩ | ⟨⟨hup, -⟩, -⟩
    · exact hdown h0
    · omega
  · intro hall
    by_contra hne
    have hpos : 0 < (Reverse ops g st lat0 lon0 x y).final.trip := by omega
    rcases Reverse_outcome ops g st lat0 lon0 x y with
      ⟨⟨-, -, hup, -⟩, -⟩ | ⟨⟨-, qs, q1, q2, -, -, hc, -, hconv, -⟩, -⟩
    · obtain ⟨q, -, hc, -, hconv⟩ := hup hpos
      have := hall _ (List.mem_of_getLast?_eq_some hc)
      simp [hconv] at this
    · have := hall _ (List.mem_of_getLast?_eq_some hc)
      simp [hconv] at this

/-- At the end `pos` is the sample of the last query, if there is one. -/
theorem Reverse_pos_last {F L E : Type} (ops : FloatOps F) (g : Gnomonic F L E)
    (st : E) (lat0 lon0 x y : F) (q : PositionCall F L)
    (hq : (Reverse ops g st lat0 lon0 x y).final.queries.getLast? = some q) :
    (Reverse ops g st lat0 lon0 x y).final.pos = q.resp := by
  rcases Reverse_outcome ops g st lat0 lon0 x y with
    ⟨⟨-, -, -, hpos⟩, -⟩ | ⟨⟨-, qs, q1, q2, hqs, -, -, -, -, hpos⟩, -⟩
  · exact hpos q hq
  · rw [hqs] at hq
    have : (qs ++ [q1, q2]).getLast? = some q2 := by simp
    rw [this] at hq
    rw [hpos]
    exact congrArg PositionCall.resp (Option.some.inj hq)

/-- C1: for every arithmetic, projector, engine state and input, one call
of `Reverse` constructs exactly one geodesic line (from the center, at
bearing `atan2d(x, y)`, with the mask of `Reverse`), and issues at most
`NumIt = 10` position queries, every one of them on that line.  `Reverse` is
a total function: its loop runs on the counter `count`, so it terminates. -/
theorem Reverse_one_line_at_most_NumIt_queries {F L E : Type} (ops : FloatOps F)
    (g : Gnomonic F L E) (st : E) (lat0 lon0 x y : F) :
    (Reverse ops g st lat0 lon0 x y).lines =
        [⟨lat0, lon0, ops.atan2d x y, reverseCaps, Reverse.line ops g st lat0 lon0 x y⟩] ∧
      (Reverse ops g st lat0 lon0 x y).lines.length = 1 ∧
      (Reverse ops g st lat0 lon0 x y).final.queries.length ≤ NumIt ∧
      NumIt = 10 ∧
      ∀ q ∈ (Reverse ops g st lat0 lon0 x y).final.queries,
        q.line = Reverse.line ops g st lat0 lon0 x y := by
  refine ⟨rfl, rfl, ?_, rfl, ?_⟩
  · rw [Reverse_final]
    obtain ⟨qs, hq, hl, -⟩ := Reverse_loop_queries ops g (Reverse.line ops g st lat0 lon0 x y)
      (Reverse.little ops g x y) (Reverse.rho ops g x y) NumIt
      { s := ops.mul g.a (ops.atan (ops.div (ops.hypot x y) g.a))
        trip := 0
        pos := Data.zeroValue ops
        st := (g.earth.LineWithCapabilities st lat0 lon0 (ops.atan2d x y) reverseCaps).2
        queries := []
        corrections := [] }
    rw [hq]
    simpa using hl
  · rw [Reverse_final]
    obtain ⟨qs, hq, -, hall⟩ := Reverse_loop_queries ops g (Reverse.line ops g st lat0 lon0 x y)
      (Reverse.little ops g x y) (Reverse.rho ops g x y) NumIt
      { s := ops.mul g.a (ops.atan (ops.div (ops.hypot x y) g.a))
        trip := 0
        pos := Data.zeroValue ops
        st := (g.earth.LineWithCapabilities st lat0 lon0 (ops.atan2d x y) reverseCaps).2
        queries := []
        corrections := [] }
    rw [hq]
    intro q hmem
    exact (hall q (by simpa using hmem)).1

/-- C2: if no correction computed by `Reverse` meets the tolerance
`|ds| ≤ Eps·a`, then all `NumIt` iterations ran, the flag is down, and the
record returned has `Lat`, `Lon`, `Azi`, `Rk` equal to the not-a-number and
`Lat0`, `Lon0`, `X`, `Y` equal to the inputs. -/
theorem Reverse_not_converged {F L E : Type} (ops : FloatOps F)
    (g : Gnomonic F L E) (st : E) (lat0 lon0 x y : F)
    (h : ∀ ds ∈ (Reverse ops g st lat0 lon0 x y).final.corrections,
      converged ops g ds = false) :
    (Reverse ops g st lat0 lon0 x y).final.corrections.length = NumIt ∧
      (Reverse ops g st lat0 lon0 x y).final.trip = 0 ∧
      (Reverse ops g st lat0 lon0 x y).rev.Lat = ops.nan ∧
      (Reverse ops g st lat0 lon0 x y).rev.Lon = ops.nan ∧
      (Reverse ops g st lat0 lon0 x y).rev.Azi = ops.nan ∧
      (Reverse ops g st lat0 lon0 x y).rev.Rk = ops.nan ∧
      (Reverse ops g st lat0 lon0 x y).rev.Lat0 = lat0 ∧
      (Reverse ops g st lat0 lon0 x y).rev.Lon0 = lon0 ∧
      (Reverse ops g st lat0 lon0 x y).rev.X = x ∧
      (Reverse ops g st lat0 lon0 x y).rev.Y = y := by
  have h0 := (Reverse_trip_eq_zero_iff ops g st lat0 lon0 x y).mpr h
  have hlen : (Reverse ops g st lat0 lon0 x y).final.corrections.length = NumIt := by
    rcases Reverse_outcome ops g st lat0 lon0 x y with ⟨-, hl⟩ | ⟨⟨hup, -⟩, -⟩
    · exact hl
    · omega
  rw [Reverse_rev, if_pos h0]
  exact ⟨hlen, h0, rfl, rfl, rfl, rfl, rfl, rfl, rfl, rfl⟩

/-- Witness of C2: on the scripted engine with the stalling script every
correction is one kilometre, none meets the tolerance. -/
theorem Reverse_not_converged_witness :
    (∀ ds ∈ (Reverse ratOps (NewGnomonic scripted) stallScript
        (some 0) (some 0) (some 0) (some 1000)).final.corrections,
      converged ratOps (NewGnomonic scripted) ds = false) ∧
    (Reverse ratOps (NewGnomonic scripted) stallScript
        (some 0) (some 0) (some 0) (some 1000)).rev.Lat = none ∧
    (Reverse ratOps (NewGnomonic scripted) stallScript
        (some 0) (some 0) (some 0) (some 1000)).rev.Y = some 1000 :=
  have h := Reverse_not_converged ratOps (NewGnomonic scripted) stallScript
    (some 0) (some 0) (some 0) (some 1000) (by decide!)
  ⟨by decide!, h.2.2.1, h.2.2.2.2.2.2.2.2.2⟩

/-- C3 as amended: if some correction of `Reverse` meets the tolerance and
fewer than `NumIt` corrections were computed (the flag went up at one of the
first nine iterations), then the sample whose latitude, longitude, azimuth
and `M12` are returned is the one queried at the corrected arclength
`s − ds`, after the sample from which that correction was computed. -/
theorem Reverse_reports_corrected_sample {F L E : Type} (ops : FloatOps F)
    (g : Gnomonic F L E) (st : E) (lat0 lon0 x y : F)
    (h : ∃ ds ∈ (Reverse ops g st lat0 lon0 x y).final.corrections,
      converged ops g ds = true)
    (hlt : (Reverse ops g st lat0 lon0 x y).final.corrections.length < NumIt) :
    ReportsCorrectedSample ops g x y (Reverse ops g st lat0 lon0 x y) := by
  have hne : (Reverse ops g st lat0 lon0 x y).final.trip ≠ 0 := by
    intro h0
    obtain ⟨ds, hmem, hc⟩ := h
    have := (Reverse_trip_eq_zero_iff ops g st lat0 lon0 x y).mp h0 ds hmem
    simp [hc] at this
  rcases Reverse_outcome ops g st lat0 lon0 x y with
    ⟨-, hl⟩ | ⟨⟨-, qs, q1, q2, hqs, hcl, hc, hs, hconv, hpos⟩, -⟩
  · omega
  · refine ⟨q1, q2, ?_, ?_, hc, hconv, hs, ?_⟩
    · rw [← hcl, hqs, Nat.add_sub_cancel]; exact getElem?_append_pair_fst qs q1 q2
    · rw [← hcl, hqs]; exact getElem?_append_pair_snd qs q1 q2
    · rw [Reverse_rev, if_neg hne, hpos]
      exact ⟨rfl, rfl, rfl, rfl⟩

/-- Witness of C3 as amended: on the script whose third sample hits the
target, three corrections are computed and the fourth sample is reported. -/
theorem Reverse_reports_corrected_sample_witness :
    (∃ ds ∈ (Reverse ratOps (NewGnomonic scripted) hitScript
        (some 0) (some 0) (some 0) (some 1000)).final.corrections,
      converged ratOps (NewGnomonic scripted) ds = true) ∧
    (Reverse ratOps (NewGnomonic scripted) hitScript
        (some 0) (some 0) (some 0) (some 1000)).final.corrections.length < NumIt ∧
    ReportsCorrectedSample ratOps (NewGnomonic scripted) (some 0) (some 1000)
      (Reverse ratOps (NewGnomonic scripted) hitScript
        (some 0) (some 0) (some 0) (some 1000)) :=
  ⟨by decide!, by decide!,
    Reverse_reports_corrected_sample ratOps (NewGnomonic scripted) hitScript
      (some 0) (some 0) (some 0) (some 1000) (by decide!) (by decide!)⟩

/-- Counterexample to C3 as stated: on the script whose tenth sample is the
first within tolerance, `Reverse` succeeds (its tenth correction, half a
millimetre, raises the flag) and reports the tenth sample, the one that
correction was computed from; there is no eleventh query, and no query at
all was made at the corrected arclength. -/
theorem Reverse_reports_uncorrected_sample_at_budget :
    (∃ ds ∈ (Reverse ratOps (NewGnomonic scripted) lateScript
        (some 0) (some 0) (some 0) (some 1000)).final.corrections,
      converged ratOps (NewGnomonic scripted) ds = true) ∧
    (Reverse ratOps (NewGnomonic scripted) lateScript
        (some 0) (some 0) (some 0) (some 1000)).rev.Lat = some 9 ∧
    (Reverse ratOps (NewGnomonic scripted) lateScript
        (some 0) (some 0) (some 0) (some 1000)).final.corrections.getLast?
      = some (some (1 / 2000)) ∧
    (Reverse ratOps (NewGnomonic scripted) lateScript
        (some 0) (some 0) (some 0) (some 1000)).final.queries.length = 10 ∧
    ((Reverse ratOps (NewGnomonic scripted) lateScript
        (some 0) (some 0) (some 0) (some 1000)).final.queries.getLast?.map
          (fun q => (q.s, q.resp.Lat2)))
      = some (some (-325445055257402000 / 40680631872019), some 9) ∧
    (∀ q ∈ (Reverse ratOps (NewGnomonic scripted) lateScript
        (some 0) (some 0) (some 0) (some 1000)).final.queries,
      q.s ≠ ratOps.sub (some (-325445055257402000 / 40680631872019)) (some (1 / 2000))) ∧
    ¬ ReportsCorrectedSample ratOps (NewGnomonic scripted) (some 0) (some 1000)
      (Reverse ratOps (NewGnomonic scripted) lateScript
        (some 0) (some 0) (some 0) (some 1000)) := by
  refine ⟨by decide!, by decide!, by decide!, by decide!, by decide!, by decide!, ?_⟩
  rintro ⟨q1, q2, -, h2, -⟩
  have hc : (Reverse ratOps (NewGnomonic scripted) lateScript
      (some 0) (some 0) (some 0) (some 1000)).final.corrections.length = 10 := by decide!
  have hq : (Reverse ratOps (NewGnomonic scripted) lateScript
      (some 0) (some 0) (some 0) (some 1000)).final.queries.length = 10 := by decide!
  rw [hc, List.getElem?_eq_none (by rw [hq])] at h2
  exact Option.noConfusion h2

/-- C4: if some correction of `Reverse` meets the tolerance (the flag is
raised), there is a last position sample, and the record returned has `Lat`,
`Lon`, `Azi` equal to its `lat2`, `lon2`, `azi2`, `Rk` equal to its `M12`,
and `Lat0`, `Lon0`, `X`, `Y` equal to the inputs. -/
theorem Reverse_converged {F L E : Type} (ops : FloatOps F)
    (g : Gnomonic F L E) (st : E) (lat0 lon0 x y : F)
    (h : ∃ ds ∈ (Reverse ops g st lat0 lon0 x y).final.corrections,
      converged ops g ds = true) :
    ∃ q, (Reverse ops g st lat0 lon0 x y).final.queries.getLast? = some q ∧
      (Reverse ops g st lat0 lon0 x y).rev.Lat = q.resp.Lat2 ∧
      (Reverse ops g st lat0 lon0 x y).rev.Lon = q.resp.Lon2 ∧
      (Reverse ops g st lat0 lon0 x y).rev.Azi = q.resp.Azi2 ∧
      (Reverse ops g st lat0 lon0 x y).rev.Rk = q.resp.M12 ∧
      (Reverse ops g st lat0 lon0 x y).rev.Lat0 = lat0 ∧
      (Reverse ops g st lat0 lon0 x y).rev.Lon0 = lon0 ∧
      (Reverse ops g st lat0 lon0 x y).rev.X = x ∧
      (Reverse ops g st lat0 lon0 x y).rev.Y = y := by
  have hne : (Reverse ops g st lat0 lon0 x y).final.trip ≠ 0 := by
    intro h0
    obtain ⟨ds, hmem, hc⟩ := h
    have := (Reverse_trip_eq_zero_iff ops g st lat0 lon0 x y).mp h0 ds hmem
    simp [hc] at this
  have hq : ∃ q, (Reverse ops g st lat0 lon0 x y).final.queries.getLast? = some q := by
    rcases Reverse_outcome ops g st lat0 lon0 x y with
      ⟨⟨-, -, hup, -⟩, -⟩ | ⟨⟨-, qs, q1, q2, hqs, -⟩, -⟩
    · obtain ⟨q, hq, -⟩ := hup (by omega)
      exact ⟨q, hq⟩
    · exact ⟨q2, by rw [hqs]; simp⟩
  obtain ⟨q, hq⟩ := hq
  refine ⟨q, hq, ?_⟩
  rw [Reverse_rev, if_neg hne, Reverse_pos_last ops g st lat0 lon0 x y q hq]
  exact ⟨rfl, rfl, rfl, rfl, rfl, rfl, rfl, rfl⟩

/-- Witness of C4: on the script whose third sample hits the target the
third correction is zero and raises the flag. -/
theorem Reverse_converged_witness :
    (∃ ds ∈ (Reverse ratOps (NewGnomonic scripted) hitScript
        (some 0) (some 0) (some 0) (some 1000)).final.corrections,
      converged ratOps (NewGnomonic scripted) ds = true) ∧
    ∃ q, (Reverse ratOps (NewGnomonic scripted) hitScript
        (some 0) (some 0) (some 0) (some 1000)).final.queries.getLast? = some q ∧
      (Reverse ratOps (NewGnomonic scripted) hitScript
        (some 0) (some 0) (some 0) (some 1000)).rev.Lat = q.resp.Lat2 :=
  have h := Reverse_converged ratOps (NewGnomonic scripted) hitScript
    (some 0) (some 0) (some 0) (some 1000) (by decide!)
  ⟨by decide!, h.imp fun _ hq => ⟨hq.1, hq.2.1⟩⟩

/-! ## `Forward` -/

/-- `Forward` makes one engine query, the inverse query from the center to
the point with the mask of `Forward`. -/
theorem Forward_inverses {F L E : Type} (ops : FloatOps F) (g : Gnomonic F L E) (st : E)
    (lat0 lon0 lat lon : F) :
    (Forward ops g st lat0 lon0 lat lon).inverses =
      [⟨lat0, lon0, lat, lon, forwardCaps,
        (g.earth.InverseWithCapabilities st lat0 lon0 lat lon forwardCaps).1⟩] := rfl

/-- C5: if the inverse query of `Forward` returns `M12 ≤ 0`, the record
returned has `X` and `Y` equal to the not-a-number, `Azi` equal to the
query's `azi2`, `Rk` equal to the query's `M12`, and `Lat0`, `Lon0`, `Lat`,
`Lon` equal to the inputs. -/
theorem Forward_degenerate {F L E : Type} (ops : FloatOps F) (g : Gnomonic F L E) (st : E)
    (lat0 lon0 lat lon : F)
    (h : ops.le (g.earth.InverseWithCapabilities st lat0 lon0 lat lon forwardCaps).1.M12
      ops.zero = true) :
    (Forward ops g st lat0 lon0 lat lon).fwd.X = ops.nan ∧
      (Forward ops g st lat0 lon0 lat lon).fwd.Y = ops.nan ∧
      (Forward ops g st lat0 lon0 lat lon).fwd.Azi =
        (g.earth.InverseWithCapabilities st lat0 lon0 lat lon forwardCaps).1.Azi2 ∧
      (Forward ops g st lat0 lon0 lat lon).fwd.Rk =
        (g.earth.InverseWithCapabilities st lat0 lon0 lat lon forwardCaps).1.M12 ∧
      (Forward ops g st lat0 lon0 lat lon).fwd.Lat0 = lat0 ∧
      (Forward ops g st lat0 lon0 lat lon).fwd.Lon0 = lon0 ∧
      (Forward ops g st lat0 lon0 lat lon).fwd.Lat = lat ∧
      (Forward ops g st lat0 lon0 lat lon).fwd.Lon = lon := by
  have hgt := ops.le_not_gt _ _ h
  simp [Forward, hgt]

/-- Witness of C5: the scripted engine answers the inverse query with
`M12 = -1/2`. -/
theorem Forward_degenerate_witness :
    ratOps.le (((NewGnomonic scripted).earth.InverseWithCapabilities [sample 7 1000 (-1 / 2)]
        (some 0) (some 0) (some 0) (some 1) forwardCaps).1.M12) ratOps.zero = true ∧
    (Forward ratOps (NewGnomonic scripted) [sample 7 1000 (-1 / 2)]
        (some 0) (some 0) (some 0) (some 1)).fwd.X = none ∧
    (Forward ratOps (NewGnomonic scripted) [sample 7 1000 (-1 / 2)]
        (some 0) (some 0) (some 0) (some 1)).fwd.Rk = some (-1 / 2) :=
  have h := Forward_degenerate ratOps (NewGnomonic scripted) [sample 7 1000 (-1 / 2)]
    (some 0) (some 0) (some 0) (some 1) (by decide!)
  ⟨by decide!, h.1, h.2.2.2.1⟩

/-- C6: if the inverse query of `Forward` returns `M12 > 0`, the record
returned has `X = (m12 / M12) · sin azi1` and `Y = (m12 / M12) · cos azi1`
for the `m12`, `M12` and `azi1` of that query (so the divisor is that
positive `M12`), the other fields are as in the degenerate case, and that
inverse query is the only engine query `Forward` makes. -/
theorem Forward_regular {F L E : Type} (ops : FloatOps F) (g : Gnomonic F L E) (st : E)
    (lat0 lon0 lat lon : F)
    (h : ops.lt ops.zero
      (g.earth.InverseWithCapabilities st lat0 lon0 lat lon forwardCaps).1.M12 = true) :
    (Forward ops g st lat0 lon0 lat lon).fwd.X =
        ops.mul
          (ops.div (g.earth.InverseWithCapabilities st lat0 lon0 lat lon forwardCaps).1.M12Reduced
            (g.earth.InverseWithCapabilities st lat0 lon0 lat lon forwardCaps).1.M12)
          (ops.sincosd
            (g.earth.InverseWithCapabilities st lat0 lon0 lat lon forwardCaps).1.Azi1).1 ∧
      (Forward ops g st lat0 lon0 lat lon).fwd.Y =
        ops.mul
          (ops.div (g.earth.InverseWithCapabilities st lat0 lon0 lat lon forwardCaps).1.M12Reduced
            (g.earth.InverseWithCapabilities st lat0 lon0 lat lon forwardCaps).1.M12)
          (ops.sincosd
            (g.earth.InverseWithCapabilities st lat0 lon0 lat lon forwardCaps).1.Azi1).2 ∧
      (Forward ops g st lat0 lon0 lat lon).fwd.Azi =
        (g.earth.InverseWithCapabilities st lat0 lon0 lat lon forwardCaps).1.Azi2 ∧
      (Forward ops g st lat0 lon0 lat lon).fwd.Rk =
        (g.earth.InverseWithCapabilities st lat0 lon0 lat lon forwardCaps).1.M12 ∧
      (Forward ops g st lat0 lon0 lat lon).fwd.Lat0 = lat0 ∧
      (Forward ops g st lat0 lon0 lat lon).fwd.Lon0 = lon0 ∧
      (Forward ops g st lat0 lon0 lat lon).fwd.Lat = lat ∧
      (Forward ops g st lat0 lon0 lat lon).fwd.Lon = lon ∧
      (Forward ops g st lat0 lon0 lat lon).inverses.length = 1 ∧
      (Forward ops g st lat0 lon0 lat lon).inverses =
        [⟨lat0, lon0, lat, lon, forwardCaps,
          (g.earth.InverseWithCapabilities st lat0 lon0 lat lon forwardCaps).1⟩] := by
  simp [Forward, h]

/-- Witness of C6: the scripted engine answers the inverse query with
`m12 = 1000`, `M12 = 1` and `azi1 = 90`; the point lies 1000 due east. -/
theorem Forward_regular_witness :
    ratOps.lt ratOps.zero
      (((NewGnomonic scripted).earth.InverseWithCapabilities [sample 90 1000 1]
        (some 0) (some 0) (some 0) (some 1) forwardCaps).1.M12) = true ∧
    (Forward ratOps (NewGnomonic scripted) [sample 90 1000 1]
        (some 0) (some 0) (some 0) (some 1)).fwd.X = some 1000 ∧
    (Forward ratOps (NewGnomonic scripted) [sample 90 1000 1]
        (some 0) (some 0) (some 0) (some 1)).fwd.Y = some 0 ∧
    (Forward ratOps (NewGnomonic scripted) [sample 90 1000 1]
        (some 0) (some 0) (some 0) (some 1)).inverses.length = 1 :=
  have h := Forward_regular ratOps (NewGnomonic scripted) [sample 90 1000 1]
    (some 0) (some 0) (some 0) (some 1) (by decide!)
  ⟨by decide!, h.1.trans (by decide!), h.2.1.trans (by decide!), h.2.2.2.2.2.2.2.2.1⟩

/-! ## The chain of arclengths -/

/-- A chain with as many corrections as queries is extended by a query at
the arclength reached and the correction computed from it. -/
theorem Chain_snoc_correction {F L : Type} (ops : FloatOps F) (little : Bool) (rho : F)
    (q : PositionCall F L) (qs : List (PositionCall F L)) :
    ∀ (s : F) (cs : List F), Chain ops little rho s qs cs → qs.length = cs.length →
      q.s = cs.foldl ops.sub s →
      Chain ops little rho s (qs ++ [q]) (cs ++ [correction ops little rho q.resp]) := by
  induction qs with
  | nil =>
    intro s cs _ hlen hq
    have hcs : cs = [] := List.length_eq_zero.mp hlen.symm
    subst hcs
    exact ⟨hq, rfl, rfl⟩
  | cons q0 qs ih =>
    intro s cs h hlen hq
    cases cs with
    | nil => simp at hlen
    | cons c0 cs =>
      obtain ⟨h1, h2, h3⟩ := h
      exact ⟨h1, h2, ih _ cs h3 (by simpa using hlen) (by simpa using hq)⟩

/-- A chain with as many corrections as queries is extended by a query at
the arclength reached. -/
theorem Chain_snoc_query {F L : Type} (ops : FloatOps F) (little : Bool) (rho : F)
    (q : PositionCall F L) (qs : List (PositionCall F L)) :
    ∀ (s : F) (cs : List F), Chain ops little rho s qs cs → qs.length = cs.length →
      q.s = cs.foldl ops.sub s → Chain ops little rho s (qs ++ [q]) cs := by
  induction qs with
  | nil =>
    intro s cs _ hlen hq
    have hcs : cs = [] := List.length_eq_zero.mp hlen.symm
    subst hcs
    exact ⟨hq, rfl⟩
  | cons q0 qs ih =>
    intro s cs h hlen hq
    cases cs with
    | nil => simp at hlen
    | cons c0 cs =>
      obtain ⟨h1, h2, h3⟩ := h
      exact ⟨h1, h2, ih _ cs h3 (by simpa using hlen) (by simpa using hq)⟩

/-- The first query of a chain is at its starting arclength. -/
theorem Chain_first {F L : Type} (ops : FloatOps F) (little : Bool) (rho : F) (s : F)
    (qs : List (PositionCall F L)) (cs : List F) (h : Chain ops little rho s qs cs)
    (q : PositionCall F L) (hq : qs[0]? = some q) : q.s = s := by
  cases qs with
  | nil => simp at hq
  | cons q0 qs =>
    have hq0 : q0 = q := by simpa using hq
    subst hq0
    cases cs with
    | nil => exact h.1
    | cons c0 cs => exact h.1

/-- In a chain the `k`-th correction, when there is one, is the one
computed from the `k`-th sample. -/
theorem Chain_correction {F L : Type} (ops : FloatOps F) (little : Bool) (rho : F)
    (qs : List (PositionCall F L)) :
    ∀ (s : F) (cs : List F), Chain ops little rho s qs cs →
      ∀ (k : Nat) (q : PositionCall F L) (c : F), qs[k]? = some q → cs[k]? = some c →
        c = correction ops little rho q.resp := by
  induction qs with
  | nil => intro s cs _ k q c hq; simp at hq
  | cons q0 qs ih =>
    intro s cs h k q c hq hc
    cases cs with
    | nil => simp at hc
    | cons c0 cs =>
      obtain ⟨-, h2, h3⟩ := h
      cases k with
      | zero =>
        have hq0 : q0 = q := by simpa using hq
        have hc0 : c0 = c := by simpa using hc
        rw [← hq0, ← hc0]; exact h2
      | succ k => exact ih _ cs h3 k q c (by simpa using hq) (by simpa using hc)

/-- In a chain a query that has a successor has a correction, and the
successor is at the arclength of the query minus that correction. -/
theorem Chain_next {F L : Type} (ops : FloatOps F) (little : Bool) (rho : F)
    (qs : List (PositionCall F L)) :
    ∀ (s : F) (cs : List F), Chain ops little rho s qs cs →
      ∀ (k : Nat) (q q' : PositionCall F L), qs[k]? = some q → qs[k + 1]? = some q' →
        cs[k]? = some (correction ops little rho q.resp) ∧
          q'.s = ops.sub q.s (correction ops little rho q.resp) := by
  induction qs with
  | nil => intro s cs _ k q q' hq; simp at hq
  | cons q0 qs ih =>
    intro s cs h k q q' hq hq'
    cases cs with
    | nil =>
      have hnil : qs = [] := h.2
      subst hnil
      simp at hq'
    | cons c0 cs =>
      obtain ⟨h1, h2, h3⟩ := h
      cases k with
      | zero =>
        have hq0 : q0 = q := by simpa using hq
        subst hq0
        have hfirst := Chain_first ops little rho _ qs cs h3 q' (by simpa using hq')
        refine ⟨by simp [h2], ?_⟩
        rw [hfirst, h1, h2]
      | succ k =>
        have := ih _ cs h3 k q q' (by simpa using hq) (by simpa using hq')
        simpa using this

/-- The loop keeps the log a chain from the arclength it started at, in
which no correction but the last meets the tolerance. -/
theorem Reverse_loop_chain {F L E : Type} (ops : FloatOps F) (g : Gnomonic F L E) (line : L)
    (little : Bool) (rho : F) (s0 : F) (n : Nat) (σ : LoopState F L E)
    (hσ : AtHead ops g little rho σ)
    (hno : NoEarlierHit ops g σ.corrections)
    (hch : Chain ops little rho s0 σ.queries σ.corrections)
    (hs : σ.s = σ.corrections.foldl ops.sub s0) :
    NoEarlierHit ops g (Reverse.loop ops g line little rho n σ).corrections ∧
      Chain ops little rho s0 (Reverse.loop ops g line little rho n σ).queries
        (Reverse.loop ops g line little rho n σ).corrections := by
  induction n generalizing σ with
  | zero => exact ⟨hno, hch⟩
  | succ n ih =>
    by_cases h : 0 < σ.trip
    · rw [Reverse_loop_break ops g line little rho n σ h]
      exact ⟨hno, Chain_snoc_query ops little rho (Reverse.query g line σ) σ.queries s0
        σ.corrections hch hσ.1 hs⟩
    · have h0 : σ.trip = 0 := by omega
      rw [Reverse_loop_next ops g line little rho n σ h0]
      apply ih _ (AtHead_advance ops g line little rho σ hσ h0)
      · intro j d hj hd
        have hj' : j < σ.corrections.length := by
          simp only [Reverse.advance, List.length_append, List.length_singleton] at hj
          omega
        have hd' : σ.corrections[j]? = some d := by
          have := hd
          simp only [Reverse.advance] at this
          rwa [List.getElem?_append_left hj'] at this
        exact hσ.2.1 h0 d (List.getElem?_mem hd')
      · exact Chain_snoc_correction ops little rho (Reverse.query g line σ) σ.queries s0
          σ.corrections hch hσ.1 hs
      · show ops.sub σ.s (correction ops little rho (Reverse.query g line σ).resp) =
          (σ.corrections ++ [correction ops little rho (Reverse.query g line σ).resp]).foldl
            ops.sub s0
        rw [List.foldl_append, ← hs]
        rfl

/-- The log of `Reverse` is a chain from `Reverse.s0` in which no correction
but the last meets the tolerance. -/
theorem Reverse_chain {F L E : Type} (ops : FloatOps F) (g : Gnomonic F L E) (st : E)
    (lat0 lon0 x y : F) :
    NoEarlierHit ops g (Reverse ops g st lat0 lon0 x y).final.corrections ∧
      Chain ops (Reverse.little ops g x y) (Reverse.rho ops g x y) (Reverse.s0 ops g x y)
        (Reverse ops g st lat0 lon0 x y).final.queries
        (Reverse ops g st lat0 lon0 x y).final.corrections := by
  rw [Reverse_final]
  exact Reverse_loop_chain ops g (Reverse.line ops g st lat0 lon0 x y)
    (Reverse.little ops g x y) (Reverse.rho ops g x y) (Reverse.s0 ops g x y) NumIt
    { s := ops.mul g.a (ops.atan (ops.div (ops.hypot x y) g.a))
      trip := 0
      pos := Data.zeroValue ops
      st := (g.earth.LineWithCapabilities st lat0 lon0 (ops.atan2d x y) reverseCaps).2
      queries := []
      corrections := [] }
    ⟨rfl, by simp, by simp, by simp⟩ (by intro j d hj; simp at hj) rfl rfl

/-- The numbers of queries and corrections of `Reverse`: ten of each, or
fewer than ten corrections and one query more. -/
theorem Reverse_counts {F L E : Type} (ops : FloatOps F) (g : Gnomonic F L E) (st : E)
    (lat0 lon0 x y : F) :
    ((Reverse ops g st lat0 lon0 x y).final.corrections.length = NumIt ∧
      (Reverse ops g st lat0 lon0 x y).final.queries.length = NumIt) ∨
    (0 < (Reverse ops g st lat0 lon0 x y).final.trip ∧
      (Reverse ops g st lat0 lon0 x y).final.corrections.length < NumIt ∧
      (Reverse ops g st lat0 lon0 x y).final.queries.length =
        (Reverse ops g st lat0 lon0 x y).final.corrections.length + 1) := by
  rcases Reverse_outcome ops g st lat0 lon0 x y with
    ⟨⟨hlen, -⟩, hl⟩ | ⟨⟨hup, qs, q1, q2, hqs, hcl, -⟩, hl⟩
  · exact Or.inl ⟨hl, by rw [hlen, hl]⟩
  · refine Or.inr ⟨hup, hl, ?_⟩
    rw [hqs, ← hcl]; simp

/-- `Reverse` makes at least one position query. -/
theorem Reverse_queries_pos {F L E : Type} (ops : FloatOps F) (g : Gnomonic F L E) (st : E)
    (lat0 lon0 x y : F) : 1 ≤ (Reverse ops g st lat0 lon0 x y).final.queries.length := by
  rcases Reverse_counts ops g st lat0 lon0 x y with ⟨-, hq⟩ | ⟨-, -, hq⟩
  · rw [hq]; decide
  · omega

/-- C15: with `Eps = 0.01 · sqrt(epsilon)`, `Reverse` makes at least one
position query, and it succeeds (the flag is up at the end, and the record
is filled from the last sample) exactly when some correction meets the
tolerance.  If none does, it makes 10 queries and computes 10 corrections.
If the correction of iteration `k + 1` (index `k` in the log) meets the
tolerance, it is the first to do so and the last one computed; `Reverse`
makes `k + 2` queries when `k + 1 ≤ 9` and 10 when `k + 1 = 10`, and no
correction is computed from the query after it.  Every correction is
computed from the sample of the query with the same index. -/
theorem Reverse_query_count {F L E : Type} (ops : FloatOps F) (g : Gnomonic F L E) (st : E)
    (lat0 lon0 x y : F) :
    Eps ops = ops.mul ops.hundredth (ops.sqrt ops.epsilon) ∧
    1 ≤ (Reverse ops g st lat0 lon0 x y).final.queries.length ∧
    ((Reverse ops g st lat0 lon0 x y).final.trip ≠ 0 ↔
      ∃ ds ∈ (Reverse ops g st lat0 lon0 x y).final.corrections,
        converged ops g ds = true) ∧
    ((Reverse ops g st lat0 lon0 x y).final.trip ≠ 0 →
      (Reverse ops g st lat0 lon0 x y).rev =
        ⟨lat0, lon0, (Reverse ops g st lat0 lon0 x y).final.pos.Lat2,
          (Reverse ops g st lat0 lon0 x y).final.pos.Lon2, x, y,
          (Reverse ops g st lat0 lon0 x y).final.pos.Azi2,
          (Reverse ops g st lat0 lon0 x y).final.pos.M12⟩) ∧
    ((Reverse ops g st lat0 lon0 x y).final.trip = 0 →
      (Reverse ops g st lat0 lon0 x y).rev =
        ⟨lat0, lon0, ops.nan, ops.nan, x, y, ops.nan, ops.nan⟩) ∧
    ((∀ ds ∈ (Reverse ops g st lat0 lon0 x y).final.corrections,
        converged ops g ds = false) →
      (Reverse ops g st lat0 lon0 x y).final.corrections.length = 10 ∧
        (Reverse ops g st lat0 lon0 x y).final.queries.length = 10) ∧
    (∀ (k : Nat) (ds : F), (Reverse ops g st lat0 lon0 x y).final.corrections[k]? = some ds →
      converged ops g ds = true →
        k + 1 ≤ 10 ∧
        (Reverse ops g st lat0 lon0 x y).final.corrections.length = k + 1 ∧
        (∀ (j : Nat) (d : F), j < k →
          (Reverse ops g st lat0 lon0 x y).final.corrections[j]? = some d →
          converged ops g d = false) ∧
        (Reverse ops g st lat0 lon0 x y).final.queries.length
          = (if k + 1 ≤ 9 then k + 2 else 10) ∧
        (Reverse ops g st lat0 lon0 x y).final.corrections[k + 1]? = none) ∧
    (∀ (k : Nat) (c : F), (Reverse ops g st lat0 lon0 x y).final.corrections[k]? = some c →
      ∃ q : PositionCall F L, (Reverse ops g st lat0 lon0 x y).final.queries[k]? = some q ∧
        c = correction ops (Reverse.little ops g x y) (Reverse.rho ops g x y) q.resp) := by
  have hiff := Reverse_trip_eq_zero_iff ops g st lat0 lon0 x y
  have hcounts := Reverse_counts ops g st lat0 lon0 x y
  obtain ⟨hno, hch⟩ := Reverse_chain ops g st lat0 lon0 x y
  refine ⟨rfl, Reverse_queries_pos ops g st lat0 lon0 x y, ?_, ?_, ?_, ?_, ?_, ?_⟩
  · constructor
    · intro hne
      by_contra hex
      apply hne
      apply hiff.mpr
      intro ds hmem
      by_contra hc
      exact hex ⟨ds, hmem, by simpa using hc⟩
    · rintro ⟨ds, hmem, hc⟩ h0
      have := hiff.mp h0 ds hmem
      simp [hc] at this
  · intro hne
    rw [Reverse_rev, if_neg hne]
  · intro h0
    rw [Reverse_rev, if_pos h0]
  · intro hall
    have h0 := hiff.mpr hall
    rcases hcounts with ⟨hc, hq⟩ | ⟨hup, -, -⟩
    · exact ⟨hc, hq⟩
    · omega
  · intro k ds hk hc
    have hklt : k < (Reverse ops g st lat0 lon0 x y).final.corrections.length :=
      (List.getElem?_eq_some_iff.mp hk).1
    have hlen : (Reverse ops g st lat0 lon0 x y).final.corrections.length = k + 1 := by
      by_contra hne
      have := hno k ds (by omega) hk
      simp [hc] at this
    have hle : (Reverse ops g st lat0 lon0 x y).final.corrections.length ≤ 10 := by
      rcases hcounts with ⟨h10, -⟩ | ⟨-, hlt, -⟩
      · rw [h10]; decide
      · exact Nat.le_of_lt hlt
    refine ⟨by omega, hlen, ?_, ?_, ?_⟩
    · intro j d hj hd
      exact hno j d (by omega) hd
    · rcases hcounts with ⟨h10, hq⟩ | ⟨-, hlt, hq⟩
      · have hk9 : k = 9 := by
          have : (10 : Nat) = k + 1 := by rw [← hlen, h10]; rfl
          omega
        rw [hq, hk9]; rfl
      · have hk9 : k + 1 ≤ 9 := by
          have : k + 1 < 10 := by rw [← hlen]; exact hlt
          omega
        rw [hq, hlen, if_pos hk9]
    · exact List.getElem?_eq_none (by omega)
  · intro k c hk
    have hklt : k < (Reverse ops g st lat0 lon0 x y).final.corrections.length :=
      (List.getElem?_eq_some_iff.mp hk).1
    have hq : k < (Reverse ops g st lat0 lon0 x y).final.queries.length := by
      rcases hcounts with ⟨h10, hq⟩ | ⟨-, -, hq⟩
      · rw [hq, ← h10]; exact hklt
      · omega
    refine ⟨(Reverse ops g st lat0 lon0 x y).final.queries[k], ?_, ?_⟩
    · exact List.getElem?_eq_getElem hq
    · exact Chain_correction ops _ _ _ _ _ hch k _ c (List.getElem?_eq_getElem hq) hk

/-- C16: the line of `Reverse` is built from the center at bearing
`atan2d(x, y)`; its first position query is at `a · atan(rho / a)` with
`rho = hypot(x, y)`; the regime `little` is `rho ≤ a` (so `rho = a` is
little whenever `a ≤ a`), and the loop works with `rho` when `little` and
with `1 / rho` otherwise; every later query is
at the arclength of the query before it minus the correction computed from
that query's sample, which is `(m12/M12 − rho) · M12 · M12` when `little`
and `(1/rho − M12/m12) · m12 · m12` otherwise. -/
theorem Reverse_arclengths {F L E : Type} (ops : FloatOps F) (g : Gnomonic F L E) (st : E)
    (lat0 lon0 x y : F) :
    (Reverse ops g st lat0 lon0 x y).lines =
        [⟨lat0, lon0, ops.atan2d x y, reverseCaps,
          (g.earth.LineWithCapabilities st lat0 lon0 (ops.atan2d x y) reverseCaps).1⟩] ∧
    (∃ q : PositionCall F L, (Reverse ops g st lat0 lon0 x y).final.queries[0]? = some q ∧
      q.s = ops.mul g.a (ops.atan (ops.div (ops.hypot x y) g.a))) ∧
    Reverse.little ops g x y = ops.le (ops.hypot x y) g.a ∧
    (ops.hypot x y = g.a → ops.le g.a g.a = true → Reverse.little ops g x y = true) ∧
    Reverse.rho ops g x y =
      (if ops.le (ops.hypot x y) g.a then ops.hypot x y
        else ops.div ops.one (ops.hypot x y)) ∧
    (∀ (k : Nat) (q q' : PositionCall F L),
      (Reverse ops g st lat0 lon0 x y).final.queries[k]? = some q →
      (Reverse ops g st lat0 lon0 x y).final.queries[k + 1]? = some q' →
        (Reverse ops g st lat0 lon0 x y).final.corrections[k]? =
            some (correction ops (Reverse.little ops g x y) (Reverse.rho ops g x y) q.resp) ∧
          q'.s = ops.sub q.s
            (correction ops (Reverse.little ops g x y) (Reverse.rho ops g x y) q.resp) ∧
          (ops.le (ops.hypot x y) g.a = true →
            q'.s = ops.sub q.s
              (ops.mul (ops.mul (ops.sub (ops.div q.resp.M12Reduced q.resp.M12)
                (ops.hypot x y)) q.resp.M12) q.resp.M12)) ∧
          (ops.le (ops.hypot x y) g.a = false →
            q'.s = ops.sub q.s
              (ops.mul (ops.mul (ops.sub (ops.div ops.one (ops.hypot x y))
                (ops.div q.resp.M12 q.resp.M12Reduced)) q.resp.M12Reduced)
                  q.resp.M12Reduced))) := by
  obtain ⟨-, hch⟩ := Reverse_chain ops g st lat0 lon0 x y
  have hpos := Reverse_queries_pos ops g st lat0 lon0 x y
  refine ⟨rfl, ?_, rfl, ?_, ?_, ?_⟩
  · refine ⟨(Reverse ops g st lat0 lon0 x y).final.queries[0], List.getElem?_eq_getElem _, ?_⟩
    exact Chain_first ops _ _ _ _ _ hch _ (List.getElem?_eq_getElem _)
  · intro hrho hle
    unfold Reverse.little
    rw [hrho]
    exact hle
  · unfold Reverse.rho Reverse.little
    cases ops.le (ops.hypot x y) g.a <;> rfl
  · intro k q q' hq hq'
    obtain ⟨h1, h2⟩ := Chain_next ops _ _ _ _ _ hch k q q' hq hq'
    refine ⟨h1, h2, ?_, ?_⟩
    · intro hl
      rw [h2]
      simp [correction, Reverse.rho, Reverse.little, hl]
    · intro hl
      rw [h2]
      simp [correction, Reverse.rho, Reverse.little, hl]

/-! ## Construction -/

/-- The loop of `Reverse` does not read the field `f` of the projector. -/
theorem Reverse_loop_f {F L E : Type} (ops : FloatOps F) (g : Gnomonic F L E) (f : F)
    (line : L) (little : Bool) (rho : F) (n : Nat) (σ : LoopState F L E) :
    Reverse.loop ops { g with f := f } line little rho n σ =
      Reverse.loop ops g line little rho n σ := by
  induction n generalizing σ with
  | zero => rfl
  | succ n ih =>
    by_cases h : 0 < σ.trip
    · rw [Reverse_loop_break _ _ _ _ _ _ _ h, Reverse_loop_break _ _ _ _ _ _ _ h]
      rfl
    · have h0 : σ.trip = 0 := by omega
      rw [Reverse_loop_next _ _ _ _ _ _ _ h0, Reverse_loop_next _ _ _ _ _ _ _ h0, ih]
      rfl

/-- C11 as amended: `NewGnomonic` validates nothing.  From every engine,
whatever its flattening, it returns the projector bound to that engine with
`a` and `f` copied from the engine's accessors, and so does `EarthGnomonic`
from the package values; the stored `f` is read by neither `Forward` nor
`Reverse`. -/
theorem NewGnomonic_validates_nothing {F L E : Type} (ops : FloatOps F)
    (geo : Geodesic F L E) :
    NewGnomonic geo = ⟨geo, geo.EquatorialRadius, geo.Flattening⟩ ∧
      (∀ a f : F, EarthGnomonic geo a f = ⟨geo, a, f⟩) ∧
      (∀ (f : F) (st : E) (lat0 lon0 lat lon : F),
        Forward ops { NewGnomonic geo with f := f } st lat0 lon0 lat lon =
          Forward ops (NewGnomonic geo) st lat0 lon0 lat lon) ∧
      (∀ (f : F) (st : E) (lat0 lon0 x y : F),
        Reverse ops { NewGnomonic geo with f := f } st lat0 lon0 x y =
          Reverse ops (NewGnomonic geo) st lat0 lon0 x y) := by
  refine ⟨rfl, fun _ _ => rfl, fun _ _ _ _ _ _ => rfl, ?_⟩
  intro f st lat0 lon0 x y
  have h := Reverse_loop_f ops (NewGnomonic geo) f
    (Reverse.line ops (NewGnomonic geo) st lat0 lon0 x y)
    (Reverse.little ops (NewGnomonic geo) x y) (Reverse.rho ops (NewGnomonic geo) x y) NumIt
    { s := Reverse.s0 ops (NewGnomonic geo) x y
      trip := 0
      pos := Data.zeroValue ops
      st := ((NewGnomonic geo).earth.LineWithCapabilities st lat0 lon0 (ops.atan2d x y)
        reverseCaps).2
      queries := []
      corrections := [] }
  unfold Reverse
  simp only []
  exact congrArg
    (fun fin : LoopState F L E =>
      ({ rev := if fin.trip = 0 then
            ⟨lat0, lon0, ops.nan, ops.nan, x, y, ops.nan, ops.nan⟩
          else ⟨lat0, lon0, fin.pos.Lat2, fin.pos.Lon2, x, y, fin.pos.Azi2, fin.pos.M12⟩
         lines := [⟨lat0, lon0, ops.atan2d x y, reverseCaps,
            Reverse.line ops (NewGnomonic geo) st lat0 lon0 x y⟩]
         final := fin } : ReverseRun F L E)) h

/-- Counterexample to C11 as stated: the engine `oblong` reports the
flattening 2, which is not below 1; `NewGnomonic` returns a projector that
carries it, and `Forward` and `Reverse` run on that projector as on any
other. -/
theorem NewGnomonic_accepts_flattening_two :
    oblong.Flattening = some 2 ∧
    ratOps.lt oblong.Flattening ratOps.one = false ∧
    (NewGnomonic oblong).f = some 2 ∧
    (Forward ratOps (NewGnomonic oblong) [sample 90 1000 1]
      (some 0) (some 0) (some 0) (some 1)).fwd =
        ⟨some 0, some 0, some 0, some 1, some 1000, some 0, some 90, some 1⟩ ∧
    (Reverse ratOps (NewGnomonic oblong) hitScript
      (some 0) (some 0) (some 0) (some 1000)).rev =
        ⟨some 0, some 0, some 3, some 3, some 0, some 1000, some 3, some 1⟩ := by
  refine ⟨rfl, by decide!, rfl, by decide!, by decide!⟩

/-! ## The center of the projection -/

/-- C13: if the inverse query of `Forward` from the center to the center
returns reduced length 0 and geodesic scale 1, and its azimuth `azi1` is
finite (0 times its sine and 0 times its cosine are 0), then `Forward`
returns `X = 0`, `Y = 0` and `Rk = 1`.  The facts of arithmetic used are
`1 > 0` and `0 / 1 = 0`. -/
theorem Forward_center {F L E : Type} (ops : FloatOps F) (g : Gnomonic F L E) (st : E)
    (lat0 lon0 : F)
    (hm : (g.earth.InverseWithCapabilities st lat0 lon0 lat0 lon0 forwardCaps).1.M12Reduced
      = ops.zero)
    (hM : (g.earth.InverseWithCapabilities st lat0 lon0 lat0 lon0 forwardCaps).1.M12
      = ops.one)
    (hsin : ops.mul ops.zero (ops.sincosd
      (g.earth.InverseWithCapabilities st lat0 lon0 lat0 lon0 forwardCaps).1.Azi1).1
        = ops.zero)
    (hcos : ops.mul ops.zero (ops.sincosd
      (g.earth.InverseWithCapabilities st lat0 lon0 lat0 lon0 forwardCaps).1.Azi1).2
        = ops.zero)
    (hpos : ops.lt ops.zero ops.one = true)
    (hdiv : ops.div ops.zero ops.one = ops.zero) :
    (Forward ops g st lat0 lon0 lat0 lon0).fwd.X = ops.zero ∧
      (Forward ops g st lat0 lon0 lat0 lon0).fwd.Y = ops.zero ∧
      (Forward ops g st lat0 lon0 lat0 lon0).fwd.Rk = ops.one ∧
      (Forward ops g st lat0 lon0 lat0 lon0).fwd.Lat0 = lat0 ∧
      (Forward ops g st lat0 lon0 lat0 lon0).fwd.Lon0 = lon0 := by
  simp [Forward, hm, hM, hpos, hdiv, hsin, hcos]

/-- Witness of C13: on the plane the inverse query between coincident
points gives reduced length 0, scale 1 and azimuth 0. -/
theorem Forward_center_witness :
    (Forward ratOps (NewGnomonic planar) () (some 5) (some 7) (some 5) (some 7)).fwd.X
        = some 0 ∧
      (Forward ratOps (NewGnomonic planar) () (some 5) (some 7) (some 5) (some 7)).fwd.Y
        = some 0 ∧
      (Forward ratOps (NewGnomonic planar) () (some 5) (some 7) (some 5) (some 7)).fwd.Rk
        = some 1 :=
  have h := Forward_center ratOps (NewGnomonic planar) () (some 5) (some 7)
    (by decide!) (by decide!) (by decide!) (by decide!) (by decide!) (by decide!)
  ⟨h.1, h.2.1, h.2.2.1⟩

/-- C12: let the arithmetic satisfy the facts `CenterArith` at 0 and 1 for
the equatorial radius `a > 0`, and let the line of `Reverse`, evaluated at
arclength 0 in any engine state, return the start point with reduced length
0 and geodesic scale 1.  Then `Reverse(lat0, lon0, 0, 0)` computes one
correction, `ds = 0`, which raises the flag at the first iteration; it makes
exactly two position queries, both at arclength 0; and it returns
`Lat = lat0`, `Lon = lon0` and `Rk = 1`. -/
theorem Reverse_center {F L E : Type} (ops : FloatOps F) (g : Gnomonic F L E) (st : E)
    (lat0 lon0 : F)
    (_ha : ops.lt ops.zero g.a = true)
    (harith : CenterArith ops g.a)
    (hengine : ∀ st1 : E,
      (g.earth.PositionWithCapabilities st1
          (Reverse.line ops g st lat0 lon0 ops.zero ops.zero) ops.zero reverseCaps).1.Lat2
        = lat0 ∧
      (g.earth.PositionWithCapabilities st1
          (Reverse.line ops g st lat0 lon0 ops.zero ops.zero) ops.zero reverseCaps).1.Lon2
        = lon0 ∧
      (g.earth.PositionWithCapabilities st1
          (Reverse.line ops g st lat0 lon0 ops.zero ops.zero) ops.zero
            reverseCaps).1.M12Reduced
        = ops.zero ∧
      (g.earth.PositionWithCapabilities st1
          (Reverse.line ops g st lat0 lon0 ops.zero ops.zero) ops.zero reverseCaps).1.M12
        = ops.one) :
    (Reverse ops g st lat0 lon0 ops.zero ops.zero).final.corrections = [ops.zero] ∧
      converged ops g ops.zero = true ∧
      (Reverse ops g st lat0 lon0 ops.zero ops.zero).final.trip = 1 ∧
      (Reverse ops g st lat0 lon0 ops.zero ops.zero).final.queries.length = 2 ∧
      (Reverse ops g st lat0 lon0 ops.zero ops.zero).final.queries.map (fun q => q.s)
        = [ops.zero, ops.zero] ∧
      (Reverse ops g st lat0 lon0 ops.zero ops.zero).rev.Lat = lat0 ∧
      (Reverse ops g st lat0 lon0 ops.zero ops.zero).rev.Lon = lon0 ∧
      (Reverse ops g st lat0 lon0 ops.zero ops.zero).rev.Rk = ops.one := by
  have hs0 : ops.mul g.a (ops.atan (ops.div (ops.hypot ops.zero ops.zero) g.a)) = ops.zero := by
    rw [harith.hypot_zero, harith.zero_div, harith.atan_zero, harith.mul_zero]
  have hlittle : Reverse.little ops g ops.zero ops.zero = true := by
    unfold Reverse.little
    rw [harith.hypot_zero]
    exact harith.zero_le
  have hrho : Reverse.rho ops g ops.zero ops.zero = ops.zero := by
    unfold Reverse.rho
    rw [hlittle]
    exact harith.hypot_zero
  have hcorr : ∀ p : Data F, p.M12Reduced = ops.zero → p.M12 = ops.one →
      correction ops true ops.zero p = ops.zero := by
    intro p h1 h2
    simp [correction, h1, h2, harith.zero_div_one, harith.sub_zero, harith.zero_mul_one]
  have hconv : converged ops g ops.zero = true := by
    unfold converged
    rw [harith.abs_zero]
    exact harith.tol_nonneg
  have hq : ∀ σ : LoopState F L E, σ.s = ops.zero →
      correction ops true ops.zero
        (Reverse.query g (Reverse.line ops g st lat0 lon0 ops.zero ops.zero) σ).resp
          = ops.zero := by
    intro σ hσ
    apply hcorr
    · simp only [Reverse.query, hσ]; exact (hengine σ.st).2.2.1
    · simp only [Reverse.query, hσ]; exact (hengine σ.st).2.2.2
  have hfin : (Reverse ops g st lat0 lon0 ops.zero ops.zero).final =
      Reverse.stop g (Reverse.line ops g st lat0 lon0 ops.zero ops.zero)
        (Reverse.advance ops g (Reverse.line ops g st lat0 lon0 ops.zero ops.zero)
          true ops.zero
          { s := ops.zero
            trip := 0
            pos := Data.zeroValue ops
            st := (g.earth.LineWithCapabilities st lat0 lon0 (ops.atan2d ops.zero ops.zero)
              reverseCaps).2
            queries := []
            corrections := [] }) := by
    rw [Reverse_final, hs0, hlittle, hrho]
    show Reverse.loop ops g _ true ops.zero (9 + 1) _ = _
    rw [Reverse_loop_next ops g _ true ops.zero 9 _ rfl]
    show Reverse.loop ops g _ true ops.zero (8 + 1) _ = _
    rw [Reverse_loop_break ops g _ true ops.zero 8 _ ?_]
    simp only [Reverse.advance]
    rw [hq _ rfl, hconv]
    decide
  have hadv : (Reverse.advance ops g (Reverse.line ops g st lat0 lon0 ops.zero ops.zero)
          true ops.zero
          { s := ops.zero
            trip := 0
            pos := Data.zeroValue ops
            st := (g.earth.LineWithCapabilities st lat0 lon0 (ops.atan2d ops.zero ops.zero)
              reverseCaps).2
            queries := []
            corrections := [] }).s = ops.zero := by
    simp only [Reverse.advance]
    rw [hq _ rfl, harith.sub_zero]
  have htrip : (Reverse ops g st lat0 lon0 ops.zero ops.zero).final.trip = 1 := by
    rw [hfin]
    simp only [Reverse.stop, Reverse.advance]
    rw [hq _ rfl, hconv]
    rfl
  have hrev := Reverse_rev ops g st lat0 lon0 ops.zero ops.zero
  rw [if_neg (by rw [htrip]; decide)] at hrev
  have hpos : (Reverse ops g st lat0 lon0 ops.zero ops.zero).final.pos =
      (g.earth.PositionWithCapabilities
        (Reverse.advance ops g (Reverse.line ops g st lat0 lon0 ops.zero ops.zero)
          true ops.zero
          { s := ops.zero
            trip := 0
            pos := Data.zeroValue ops
            st := (g.earth.LineWithCapabilities st lat0 lon0 (ops.atan2d ops.zero ops.zero)
              reverseCaps).2
            queries := []
            corrections := [] }).st
        (Reverse.line ops g st lat0 lon0 ops.zero ops.zero) ops.zero reverseCaps).1 := by
    rw [hfin]
    simp only [Reverse.stop, Reverse.query]
    rw [hadv]
  refine ⟨?_, hconv, htrip, ?_, ?_, ?_, ?_, ?_⟩
  · rw [hfin]
    simp only [Reverse.stop, Reverse.advance, List.nil_append]
    rw [hq _ rfl]
  · rw [hfin]
    simp [Reverse.stop, Reverse.advance]
  · rw [hfin]
    simp only [Reverse.stop, List.map_append, List.map_cons, List.map_nil]
    rw [show (Reverse.query g (Reverse.line ops g st lat0 lon0 ops.zero ops.zero)
        (Reverse.advance ops g (Reverse.line ops g st lat0 lon0 ops.zero ops.zero)
          true ops.zero
          { s := ops.zero
            trip := 0
            pos := Data.zeroValue ops
            st := (g.earth.LineWithCapabilities st lat0 lon0 (ops.atan2d ops.zero ops.zero)
              reverseCaps).2
            queries := []
            corrections := [] })).s = ops.zero from hadv]
    simp [Reverse.advance, Reverse.query]
  · rw [hrev, hpos]; exact (hengine _).1
  · rw [hrev, hpos]; exact (hengine _).2.1
  · rw [hrev, hpos]; exact (hengine _).2.2.2

/-- Witness of C12: on the plane, with the WGS84 equatorial radius, the
line from `(5, 7)` evaluated at arclength 0 returns `(5, 7)` with reduced
length 0 and scale 1. -/
theorem Reverse_center_witness :
    ratOps.lt ratOps.zero (NewGnomonic planar).a = true ∧
      (Reverse ratOps (NewGnomonic planar) () (some 5) (some 7) ratOps.zero
        ratOps.zero).final.queries.length = 2 ∧
      (Reverse ratOps (NewGnomonic planar) () (some 5) (some 7) ratOps.zero
        ratOps.zero).rev.Lat = some 5 ∧
      (Reverse ratOps (NewGnomonic planar) () (some 5) (some 7) ratOps.zero
        ratOps.zero).rev.Lon = some 7 ∧
      (Reverse ratOps (NewGnomonic planar) () (some 5) (some 7) ratOps.zero
        ratOps.zero).rev.Rk = ratOps.one :=
  have h := Reverse_center ratOps (NewGnomonic planar) () (some 5) (some 7) (by decide!)
    ⟨by decide!, by decide!, by decide!, by decide!, by decide!, by decide!, by decide!,
      by decide!, by decide!, by decide!⟩
    (fun st1 => by cases st1; decide!)
  ⟨by decide!, h.2.2.2.1, h.2.2.2.2.2.1, h.2.2.2.2.2.2.1, h.2.2.2.2.2.2.2⟩

/-! ## Exact real arithmetic -/

/-- There is an exact arithmetic on the real numbers. -/
theorem exists_exactReal : ∃ ops : FloatOps ℝ, ExactReal ops := by
  classical
  refine ⟨{ nan := 0, zero := 0, one := 1, hundredth := 1 / 100, epsilon := 1 / 2 ^ 52
            sub := fun a b => a - b
            mul := fun a b => a * b
            div := fun a b => a / b
            abs := fun a => |a|
            sqrt := Real.sqrt
            atan := Real.arctan
            hypot := fun a b => Real.sqrt (a ^ 2 + b ^ 2)
            atan2d := fun y x => Complex.arg ⟨x, y⟩ * 180 / Real.pi
            sincosd := fun d => (Real.sin (d * Real.pi / 180), Real.cos (d * Real.pi / 180))
            le := fun a b => decide (a ≤ b)
            lt := fun a b => decide (a < b)
            le_not_gt := ?_ }, ?_⟩
  · intro a b h
    have hab : a ≤ b := of_decide_eq_true h
    exact decide_eq_false (not_lt.mpr hab)
  · exact
      { zero_eq := rfl, one_eq := rfl, hundredth_eq := rfl
        sub_eq := fun _ _ => rfl, mul_eq := fun _ _ => rfl, div_eq := fun _ _ => rfl
        abs_eq := fun _ => rfl, sqrt_eq := fun _ => rfl, atan_eq := fun _ => rfl
        hypot_eq := fun _ _ => rfl
        le_iff := fun _ _ => decide_eq_true_iff
        lt_iff := fun _ _ => decide_eq_true_iff }

/-- The tolerance `Eps · a` of an exact arithmetic is not negative when `a`
is not. -/
theorem tolerance_nonneg {L E : Type} (ops : FloatOps ℝ) (hx : ExactReal ops)
    (g : Gnomonic ℝ L E) (ha : 0 ≤ g.a) : 0 ≤ ops.mul (Eps ops) g.a := by
  unfold Eps
  rw [hx.mul_eq, hx.mul_eq, hx.hundredth_eq, hx.sqrt_eq]
  have := Real.sqrt_nonneg ops.epsilon
  positivity

/-- The arctangent of a non-negative number is at most that number. -/
theorem arctan_le_self_of_nonneg (t : ℝ) (ht : 0 ≤ t) : Real.arctan t ≤ t := by
  rcases eq_or_lt_of_le ht with h | h
  · rw [← h, Real.arctan_zero]
  · have h1 : 0 < Real.arctan t := by
      have := Real.arctan_strictMono h
      rwa [Real.arctan_zero] at this
    have h2 := Real.lt_tan h1 (Real.arctan_lt_pi_div_two t)
    rw [Real.tan_arctan] at h2
    exact le_of_lt h2

/-- C18: over exact real arithmetic, for every planar radius `rho` and
every sample: with `M12 ≠ 0`, the correction of the little regime (computed
with `rho`) is zero exactly when `m12 = rho · M12`; with `rho > a > 0` and
`m12 ≠ 0`, the correction of the far regime (computed with `1 / rho`) is
zero exactly when `m12 = rho · M12`.  In either regime a zero correction
leaves the arclength where it is and, the equatorial radius not being
negative, raises the flag. -/
theorem correction_eq_zero_iff {L E : Type} (ops : FloatOps ℝ) (hx : ExactReal ops)
    (g : Gnomonic ℝ L E) (rho : ℝ) (pos : Data ℝ) :
    (pos.M12 ≠ 0 →
      (correction ops true rho pos = 0 ↔ pos.M12Reduced = rho * pos.M12)) ∧
    (0 < g.a → g.a < rho → pos.M12Reduced ≠ 0 →
      (correction ops false (ops.div ops.one rho) pos = 0 ↔
        pos.M12Reduced = rho * pos.M12)) ∧
    (∀ (little : Bool) (r s : ℝ), 0 ≤ g.a → correction ops little r pos = 0 →
      ops.sub s (correction ops little r pos) = s ∧
        converged ops g (correction ops little r pos) = true) := by
  refine ⟨?_, ?_, ?_⟩
  · intro hM
    have hc : correction ops true rho pos =
        (pos.M12Reduced - rho * pos.M12) * pos.M12 := by
      simp only [correction, if_true, hx.sub_eq, hx.mul_eq, hx.div_eq]
      have h1 : pos.M12Reduced / pos.M12 * pos.M12 = pos.M12Reduced :=
        div_mul_cancel₀ _ hM
      calc (pos.M12Reduced / pos.M12 - rho) * pos.M12 * pos.M12
          = (pos.M12Reduced / pos.M12 * pos.M12 - rho * pos.M12) * pos.M12 := by ring
        _ = (pos.M12Reduced - rho * pos.M12) * pos.M12 := by rw [h1]
    rw [hc, mul_eq_zero]
    constructor
    · rintro (h | h)
      · linarith
      · exact absurd h hM
    · intro h
      left; linarith
  · intro ha hlt hm
    have hrho : rho ≠ 0 := by linarith
    have hc : correction ops false (ops.div ops.one rho) pos =
        (pos.M12Reduced - rho * pos.M12) * pos.M12Reduced / rho := by
      simp only [correction, Bool.false_eq_true, if_false, hx.sub_eq, hx.mul_eq, hx.div_eq,
        hx.one_eq]
      field_simp
      ring
    rw [hc, div_eq_zero_iff, mul_eq_zero]
    constructor
    · rintro ((h | h) | h)
      · linarith
      · exact absurd h hm
      · exact absurd h hrho
    · intro h
      left; left; linarith
  · intro little r s ha h0
    rw [h0]
    refine ⟨by rw [hx.sub_eq]; ring, ?_⟩
    unfold converged
    rw [hx.le_iff, hx.abs_eq, abs_zero]
    exact tolerance_nonneg ops hx g ha

/-- Witness of C18: an exact arithmetic exists; on the engine `flatScale`
(`a = 1`) with target radius 2, the sample with `m12 = 2`, `M12 = 1` has a
zero far-regime correction. -/
theorem correction_eq_zero_iff_witness :
    ∃ ops : FloatOps ℝ, ExactReal ops ∧
      (correction ops false (ops.div ops.one 2) ⟨0, 0, 0, 0, 2, 2, 1⟩ = 0 ↔
        (2 : ℝ) = 2 * 1) := by
  obtain ⟨ops, hx⟩ := exists_exactReal
  exact ⟨ops, hx,
    (correction_eq_zero_iff ops hx (NewGnomonic flatScale) 2 ⟨0, 0, 0, 0, 2, 2, 1⟩).2.1
      (by simp [NewGnomonic, flatScale]) (by simp [NewGnomonic, flatScale])
      (by norm_num)⟩

/-- C19: over exact real arithmetic with `a > 0`, the arclength
`s0 = a · atan(hypot(x, y) / a)` of the first query of `Reverse` satisfies
`0 ≤ s0 < a · π / 2` and `s0 ≤ hypot(x, y)`, and `s0 = 0` exactly when
`x = y = 0`.  In the little regime the loop works with `hypot(x, y)` itself;
the reciprocal is taken only in the far regime, where `hypot(x, y) > a > 0`,
so the divisor is not zero and the reciprocal lies strictly between 0 and
`1 / a`. -/
theorem Reverse_s0_bounds {L E : Type} (ops : FloatOps ℝ) (hx : ExactReal ops)
    (g : Gnomonic ℝ L E) (ha : 0 < g.a) (st : E) (lat0 lon0 x y : ℝ) :
    (∃ q : PositionCall ℝ L, (Reverse ops g st lat0 lon0 x y).final.queries[0]? = some q ∧
      q.s = Reverse.s0 ops g x y) ∧
    Reverse.s0 ops g x y = g.a * Real.arctan (Real.sqrt (x ^ 2 + y ^ 2) / g.a) ∧
    0 ≤ Reverse.s0 ops g x y ∧
    Reverse.s0 ops g x y < g.a * (Real.pi / 2) ∧
    Reverse.s0 ops g x y ≤ Real.sqrt (x ^ 2 + y ^ 2) ∧
    (Reverse.s0 ops g x y = 0 ↔ x = 0 ∧ y = 0) ∧
    (Reverse.little ops g x y = true ↔ Real.sqrt (x ^ 2 + y ^ 2) ≤ g.a) ∧
    (Reverse.little ops g x y = true → Reverse.rho ops g x y = Real.sqrt (x ^ 2 + y ^ 2)) ∧
    (Reverse.little ops g x y = false →
      g.a < Real.sqrt (x ^ 2 + y ^ 2) ∧ Real.sqrt (x ^ 2 + y ^ 2) ≠ 0 ∧
      Reverse.rho ops g x y = 1 / Real.sqrt (x ^ 2 + y ^ 2) ∧
      0 < Reverse.rho ops g x y ∧ Reverse.rho ops g x y < 1 / g.a) := by
  have hs0 : Reverse.s0 ops g x y = g.a * Real.arctan (Real.sqrt (x ^ 2 + y ^ 2) / g.a) := by
    unfold Reverse.s0
    rw [hx.mul_eq, hx.atan_eq, hx.div_eq, hx.hypot_eq]
  have hr : 0 ≤ Real.sqrt (x ^ 2 + y ^ 2) := Real.sqrt_nonneg _
  have ht : 0 ≤ Real.sqrt (x ^ 2 + y ^ 2) / g.a := div_nonneg hr (le_of_lt ha)
  have hat : 0 ≤ Real.arctan (Real.sqrt (x ^ 2 + y ^ 2) / g.a) := by
    have := Real.arctan_strictMono.monotone ht
    rwa [Real.arctan_zero] at this
  have hlittle : Reverse.little ops g x y = true ↔ Real.sqrt (x ^ 2 + y ^ 2) ≤ g.a := by
    unfold Reverse.little
    rw [hx.le_iff, hx.hypot_eq]
  refine ⟨?_, hs0, ?_, ?_, ?_, ?_, hlittle, ?_, ?_⟩
  · obtain ⟨-, hch⟩ := Reverse_chain ops g st lat0 lon0 x y
    have hpos := Reverse_queries_pos ops g st lat0 lon0 x y
    exact ⟨(Reverse ops g st lat0 lon0 x y).final.queries[0], List.getElem?_eq_getElem _,
      Chain_first ops _ _ _ _ _ hch _ (List.getElem?_eq_getElem _)⟩
  · rw [hs0]
    exact mul_nonneg (le_of_lt ha) hat
  · rw [hs0]
    exact mul_lt_mul_of_pos_left (Real.arctan_lt_pi_div_two _) ha
  · rw [hs0]
    calc g.a * Real.arctan (Real.sqrt (x ^ 2 + y ^ 2) / g.a)
        ≤ g.a * (Real.sqrt (x ^ 2 + y ^ 2) / g.a) :=
          mul_le_mul_of_nonneg_left (arctan_le_self_of_nonneg _ ht) (le_of_lt ha)
      _ = Real.sqrt (x ^ 2 + y ^ 2) := by field_simp
  · rw [hs0, mul_eq_zero, Real.arctan_eq_zero_iff, div_eq_zero_iff,
      Real.sqrt_eq_zero (by positivity)]
    constructor
    · rintro (h | h | h)
      · exact absurd h (ne_of_gt ha)
      · constructor <;> nlinarith [sq_nonneg x, sq_nonneg y]
      · exact absurd h (ne_of_gt ha)
    · rintro ⟨rfl, rfl⟩
      right; left; norm_num
  · intro hl
    unfold Reverse.rho
    rw [hl, hx.hypot_eq]
    rfl
  · intro hl
    have hgt : g.a < Real.sqrt (x ^ 2 + y ^ 2) := by
      by_contra hno
      have := hlittle.mpr (not_lt.mp hno)
      rw [hl] at this
      exact Bool.false_ne_true this
    have hpos : 0 < Real.sqrt (x ^ 2 + y ^ 2) := lt_trans ha hgt
    have hrho : Reverse.rho ops g x y = 1 / Real.sqrt (x ^ 2 + y ^ 2) := by
      unfold Reverse.rho
      rw [hl, hx.div_eq, hx.one_eq, hx.hypot_eq]
      rfl
    refine ⟨hgt, ne_of_gt hpos, hrho, ?_, ?_⟩
    · rw [hrho]; positivity
    · rw [hrho]
      exact one_div_lt_one_div_of_lt ha hgt

/-- Witness of C19: an exact arithmetic exists, and the engine `flatScale`
has `a = 1 > 0`; for `(x, y) = (3, 4)` the first arclength is between 0 and
`π / 2` and at most 5. -/
theorem Reverse_s0_bounds_witness :
    ∃ ops : FloatOps ℝ, ExactReal ops ∧ 0 < (NewGnomonic flatScale).a ∧
      0 ≤ Reverse.s0 ops (NewGnomonic flatScale) 3 4 ∧
      Reverse.s0 ops (NewGnomonic flatScale) 3 4
        < (NewGnomonic flatScale).a * (Real.pi / 2) := by
  obtain ⟨ops, hx⟩ := exists_exactReal
  have ha : 0 < (NewGnomonic flatScale).a := by
    simp [NewGnomonic, flatScale]
  have h := Reverse_s0_bounds ops hx (NewGnomonic flatScale) ha () 0 0 3 4
  exact ⟨ops, hx, ha, h.2.2.1, h.2.2.2.1⟩

/-! ## The masks of the engine queries -/

/-- C17: the inverse query of `Forward` is made with the mask
`Azimuth | GeodesicScale | ReducedLength = 0x3205`; `Reverse` builds its
line with, and passes to every position query, the mask
`Latitude | Longitude | Azimuth | DistanceIn | ReducedLength | GeodesicScale
= 0x3B8F`.  So the mask of each position query ANDed with the mask of the
line is the mask of the query; it holds all of `Latitude`, `Longitude`,
`Azimuth`, `ReducedLength`, `GeodesicScale` and `DistanceIn`, and none of
the bits of `Area`, `CapC4` or `LongUnroll`. -/
theorem query_masks {F L E : Type} (ops : FloatOps F) (g : Gnomonic F L E) (st : E)
    (a b c d : F) :
    (∀ i ∈ (Forward ops g st a b c d).inverses, i.caps = forwardCaps) ∧
      (Forward ops g st a b c d).inverses.length = 1 ∧
      forwardCaps = Azimuth ||| GeodesicScale ||| ReducedLength ∧ forwardCaps = 0x3205 ∧
      (∀ l ∈ (Reverse ops g st a b c d).lines, l.caps = reverseCaps) ∧
      (∀ q ∈ (Reverse ops g st a b c d).final.queries, q.caps = reverseCaps) ∧
      (∀ l ∈ (Reverse ops g st a b c d).lines,
        ∀ q ∈ (Reverse ops g st a b c d).final.queries, q.caps &&& l.caps = q.caps) ∧
      reverseCaps = Latitude ||| Longitude ||| Azimuth ||| DistanceIn ||| ReducedLength
        ||| GeodesicScale ∧
      reverseCaps = 0x3B8F ∧
      (∀ p ∈ [Latitude, Longitude, Azimuth, ReducedLength, GeodesicScale, DistanceIn],
        reverseCaps &&& p = p) ∧
      reverseCaps &&& Area = 0 ∧ reverseCaps &&& CapC4 = 0 ∧ reverseCaps &&& LongUnroll = 0 := by
  have hq : ∀ q ∈ (Reverse ops g st a b c d).final.queries, q.caps = reverseCaps := by
    rw [Reverse_final]
    obtain ⟨qs, hqs, -, hall⟩ := Reverse_loop_queries ops g (Reverse.line ops g st a b c d)
      (Reverse.little ops g c d) (Reverse.rho ops g c d) NumIt
      { s := ops.mul g.a (ops.atan (ops.div (ops.hypot c d) g.a))
        trip := 0
        pos := Data.zeroValue ops
        st := (g.earth.LineWithCapabilities st a b (ops.atan2d c d) reverseCaps).2
        queries := []
        corrections := [] }
    rw [hqs]
    intro q hmem
    exact (hall q (by simpa using hmem)).2
  have hl : ∀ l ∈ (Reverse ops g st a b c d).lines, l.caps = reverseCaps := by
    intro l hmem
    have : l = ⟨a, b, ops.atan2d c d, reverseCaps, Reverse.line ops g st a b c d⟩ := by
      simpa [Reverse, Reverse.line] using hmem
    rw [this]
  refine ⟨?_, rfl, rfl, by decide, hl, hq, ?_, rfl, by decide, by decide, by decide,
    by decide, by decide⟩
  · intro i hmem
    have : i = ⟨a, b, c, d, forwardCaps,
        (g.earth.InverseWithCapabilities st a b c d forwardCaps).1⟩ := by
      simpa [Forward] using hmem
    rw [this]
  · intro l hlm q hqm
    rw [hl l hlm, hq q hqm, Nat.and_self]

end GeographicLib

namespace Capabilities

/-! ## The capability algebra -/

/-- A mask gains a bit of `p` from a union only if one of the two sides had
it, and a side that holds all of `p` keeps holding it. -/
theorem consistent_or (m c p : BitMask)
    (hm : m &&& p &&& OutMask ≠ 0 → m &&& p = p)
    (hc : c &&& p &&& OutMask ≠ 0 → c &&& p = p)
    (h : (m ||| c) &&& p &&& OutMask ≠ 0) : (m ||| c) &&& p = p := by
  have hsplit : (m ||| c) &&& p &&& OutMask = (m &&& p &&& OutMask) ||| (c &&& p &&& OutMask) := by
    apply Nat.eq_of_testBit_eq
    intro i
    simp only [Nat.testBit_and, Nat.testBit_or]
    cases m.testBit i <;> cases c.testBit i <;> cases p.testBit i <;> cases OutMask.testBit i <;> rfl
  have hcases : m &&& p &&& OutMask ≠ 0 ∨ c &&& p &&& OutMask ≠ 0 := by
    by_contra hno
    push_neg at hno
    rw [hsplit, hno.1, hno.2] at h
    exact h rfl
  apply Nat.eq_of_testBit_eq
  intro i
  rcases hcases with hx | hx
  · have hb := congrArg (fun n => Nat.testBit n i) (hm hx)
    simp only [Nat.testBit_and] at hb
    simp only [Nat.testBit_and, Nat.testBit_or]
    revert hb
    cases m.testBit i <;> cases c.testBit i <;> cases p.testBit i <;> simp
  · have hb := congrArg (fun n => Nat.testBit n i) (hc hx)
    simp only [Nat.testBit_and] at hb
    simp only [Nat.testBit_and, Nat.testBit_or]
    revert hb
    cases m.testBit i <;> cases c.testBit i <;> cases p.testBit i <;> simp

/-- Every named constant holds all of an output capability as soon as it
holds that capability's output bit. -/
theorem named_consistent :
    ∀ c ∈ namedConstants, ∀ p ∈ outputCapabilities,
      c &&& p &&& OutMask ≠ 0 → c &&& p = p := by
  decide

theorem foldl_consistent (p : BitMask) (hp : p ∈ outputCapabilities) (l : List BitMask)
    (hl : ∀ c ∈ l, c ∈ namedConstants) (acc : BitMask)
    (hacc : acc &&& p &&& OutMask ≠ 0 → acc &&& p = p) :
    l.foldl (fun m c => m ||| c) acc &&& p &&& OutMask ≠ 0 →
      l.foldl (fun m c => m ||| c) acc &&& p = p := by
  induction l generalizing acc with
  | nil => simpa using hacc
  | cons c l ih =>
    simp only [List.foldl_cons]
    apply ih (fun d hd => hl d (List.mem_cons_of_mem _ hd))
    exact consistent_or acc c p hacc
      (named_consistent c (hl c (List.mem_cons_self _ _)) p hp)

/-- C7: for a mask `m` that is the bitwise OR of any list of named
constants and any named output capability `p`, if `m` holds the output bit
of `p` (`m & p & OutMask ≠ 0`) then `m` holds all of `p`, its prerequisite
series bits included (`m & p = p`). -/
theorem union_named_consistent (l : List BitMask) (hl : ∀ c ∈ l, c ∈ namedConstants)
    (p : BitMask) (hp : p ∈ outputCapabilities)
    (h : union l &&& p &&& OutMask ≠ 0) : union l &&& p = p :=
  foldl_consistent p hp l hl 0 (by simp) h

/-- Witness of C7: the union of `Distance`, `CapC2` and `LongUnroll` holds
the output bit of `Distance` and with it the series bit `CapC1`. -/
theorem union_named_consistent_witness :
    (∀ c ∈ [Distance, CapC2, LongUnroll], c ∈ namedConstants) ∧
      Distance ∈ outputCapabilities ∧
      union [Distance, CapC2, LongUnroll] &&& Distance &&& OutMask ≠ 0 ∧
      union [Distance, CapC2, LongUnroll] &&& Distance = Distance :=
  ⟨by decide, by decide, by decide,
    union_named_consistent [Distance, CapC2, LongUnroll] (by decide) Distance (by decide)
      (by decide)⟩

/-- C8: `All` is `outAll | capAll = 0x7F9F`, the union of the output bits
`2^7 .. 2^14` and the five series bits; it is the bitwise OR of the eight
named output capabilities; it does not hold `LongUnroll`; and `OutMask` is
`outAll | LongUnroll`. -/
theorem All_eq :
    All = outAll ||| capAll ∧ All = 0x7F9F ∧
      All = (2 ^ 7 ||| 2 ^ 8 ||| 2 ^ 9 ||| 2 ^ 10 ||| 2 ^ 11 ||| 2 ^ 12 ||| 2 ^ 13 ||| 2 ^ 14)
        ||| (CapC1 ||| CapC1p ||| CapC2 ||| CapC3 ||| CapC4) ∧
      All = Latitude ||| Longitude ||| Azimuth ||| Distance ||| DistanceIn ||| ReducedLength
        ||| GeodesicScale ||| Area ∧
      All = union outputCapabilities ∧
      All &&& LongUnroll = 0 ∧
      OutMask = outAll ||| LongUnroll := by
  decide

/-- C9: `Standard` is `Latitude | Longitude | Azimuth | Distance`, the value
`0x789` (output bits `2^7 .. 2^10` with the series bits `CapC1` and `CapC3`);
it is a bitwise subset of `All`; and it holds none of the output bits of
`DistanceIn`, `ReducedLength`, `GeodesicScale`, `Area` or `LongUnroll`. -/
theorem Standard_eq :
    Standard = Latitude ||| Longitude ||| Azimuth ||| Distance ∧ Standard = 0x789 ∧
      Standard = 2 ^ 7 ||| 2 ^ 8 ||| 2 ^ 9 ||| 2 ^ 10 ||| CapC1 ||| CapC3 ∧
      Standard &&& All = Standard ∧
      Standard &&& (DistanceIn &&& OutMask) = 0 ∧
      Standard &&& (ReducedLength &&& OutMask) = 0 ∧
      Standard &&& (GeodesicScale &&& OutMask) = 0 ∧
      Standard &&& (Area &&& OutMask) = 0 ∧
      Standard &&& (LongUnroll &&& OutMask) = 0 ∧
      Standard &&& (2 ^ 11 ||| 2 ^ 12 ||| 2 ^ 13 ||| 2 ^ 14 ||| 2 ^ 15) = 0 := by
  decide

/-- C10: each of the eight named output capabilities is one output bit
OR-ed with series bits only, with the values listed; the eight output bits
are pairwise distinct and at least `2^7`; the five series bits are pairwise
distinct and together make `0x1F`; the series range `0x1F` and the output
range `OutMask = 0xFF80` are disjoint; and no named constant holds bit 5 or
bit 6. -/
theorem output_capabilities_layout :
    (Latitude = 2 ^ 7 ∧ Longitude = 2 ^ 8 ||| CapC3 ∧ Azimuth = 2 ^ 9 ∧
      Distance = 2 ^ 10 ||| CapC1 ∧ DistanceIn = 2 ^ 11 ||| CapC1 ||| CapC1p ∧
      ReducedLength = 2 ^ 12 ||| CapC1 ||| CapC2 ∧
      GeodesicScale = 2 ^ 13 ||| CapC1 ||| CapC2 ∧ Area = 2 ^ 14 ||| CapC4) ∧
    outputCapabilities.map (fun p => p &&& OutMask)
      = [2 ^ 7, 2 ^ 8, 2 ^ 9, 2 ^ 10, 2 ^ 11, 2 ^ 12, 2 ^ 13, 2 ^ 14] ∧
    (∀ p ∈ outputCapabilities, p = (p &&& OutMask) ||| (p &&& capAll)) ∧
    (outputCapabilities.map (fun p => p &&& OutMask)).Nodup ∧
    (∀ p ∈ outputCapabilities, 2 ^ 7 ≤ p &&& OutMask) ∧
    seriesBits = [2 ^ 0, 2 ^ 1, 2 ^ 2, 2 ^ 3, 2 ^ 4] ∧
    seriesBits.Nodup ∧ union seriesBits = 0x1F ∧ capAll = 0x1F ∧ OutMask = 0xFF80 ∧
    capAll &&& OutMask = 0 ∧
    (∀ c ∈ namedConstants, c &&& (2 ^ 5 ||| 2 ^ 6) = 0) := by
  decide

end Capabilities
